import Mathlib

/-!
Verification of the pycca/pycc runtime x86 assembler.

The repository holds three drafts of the same package (`pycc`, `pyca`,
`pycca`).  Each definition below carries a doc comment naming the source
file and function it embeds.  Byte strings are modelled as `List Nat`
(each entry a byte value), machine integers as `Int` with explicit range
checks mirroring Python `struct.pack`, and Python exceptions as
`Except String`.
-/

namespace Asm

/-- Byte strings (Python `bytes`) are lists of byte values. -/
abbrev Bytes := List Nat

instance {α β : Type} [DecidableEq α] [DecidableEq β] : DecidableEq (Except α β) :=
  fun a b =>
    match a, b with
    | .ok x, .ok y =>
      if h : x = y then isTrue (by rw [h]) else isFalse (by simp [h])
    | .error x, .error y =>
      if h : x = y then isTrue (by rw [h]) else isFalse (by simp [h])
    | .ok _, .error _ => isFalse (by simp)
    | .error _, .ok _ => isFalse (by simp)

/-- Little-endian two's-complement byte encoding of `x` at width `w` bytes:
the string produced by a successful Python `struct.pack` call. -/
def toLE (w : Nat) (x : Int) : Bytes :=
  (List.range w).map (fun i => ((x.emod ((2 : Int) ^ (8 * w))).toNat / 2 ^ (8 * i)) % 256)

/-- Python `struct.pack` with a signed format of width `w` bytes: succeeds
exactly when `x` fits the signed two's-complement range. -/
def packSigned (w : Nat) (x : Int) : Option Bytes :=
  if -((2 : Int) ^ (8 * w - 1)) ≤ x ∧ x < (2 : Int) ^ (8 * w - 1) then some (toLE w x) else none

/-- Python `struct.pack` with an unsigned format of width `w` bytes. -/
def packUnsigned (w : Nat) (x : Int) : Option Bytes :=
  if 0 ≤ x ∧ x < (2 : Int) ^ (8 * w) then some (toLE w x) else none

/-- The list of byte widths selected by the boolean flags of `pack_int` /
`pack_uint` in `pycc/asm/pointer.py` (format characters `bhiq` / `BHIQ`). -/
def packWidths (b1 b2 b4 b8 : Bool) : List Nat :=
  (if b1 then [1] else []) ++ (if b2 then [2] else []) ++
  (if b4 then [4] else []) ++ (if b8 then [8] else [])

/-- Try each width in order, returning the first successful packing
(the loop over `modes` shared by `pack_int` and `pack_uint`). -/
def tryPack (f : Nat → Int → Option Bytes) (ws : List Nat) (x : Int) : Option Bytes :=
  match ws with
  | [] => none
  | w :: rest =>
    match f w x with
    | some b => some b
    | none => tryPack f rest x

/-- `pack_uint` from `pycc/asm/pointer.py`: pack an unsigned integer into the
smallest enabled format; raises `struct.error` when even the widest fails. -/
def pack_uint (x : Int) (uint8 uint16 uint32 uint64 : Bool) : Except String Bytes :=
  match tryPack packUnsigned (packWidths uint8 uint16 uint32 uint64) x with
  | some b => .ok b
  | none => .error "struct.error: argument out of range"

/-- `pack_int` from `pycc/asm/pointer.py`: pack a signed integer into the
smallest enabled format; when `try_uint` is set, fall back to `pack_uint`
with the same width flags after every signed format failed. -/
def pack_int (x : Int) (int8 int16 int32 int64 try_uint : Bool) : Except String Bytes :=
  match tryPack packSigned (packWidths int8 int16 int32 int64) x with
  | some b => .ok b
  | none =>
    if try_uint then pack_uint x int8 int16 int32 int64
    else .error "struct.error: argument out of range"

/-!  Character-list implementations of the Python string operations the
assembler relies on (the corresponding `String` library functions do not
evaluate inside the kernel). -/

/-- Python `str.startswith`. -/
def startsWithL (s p : List Char) : Bool := p.isPrefixOf s

/-- `startswith` on strings. -/
def strStartsWith (s p : String) : Bool := startsWithL s.toList p.toList

/-- Python `int(s)` restricted to plain digit strings (the only form the
assembler feeds it); anything else is a `ValueError`, modelled as `none`. -/
def toNatL (l : List Char) : Option Nat :=
  if l ≠ [] ∧ l.all Char.isDigit then
    some (l.foldl (fun acc c => acc * 10 + (c.toNat - '0'.toNat)) 0)
  else none

/-- ASCII `str.lower`, character by character, by code point. -/
def lowerCode (c : Char) : Nat :=
  if 65 ≤ c.toNat ∧ c.toNat ≤ 90 then c.toNat + 32 else c.toNat

/-- Compare `s.lower()` against an already-lowercase target. -/
def lowerEqL (s target : List Char) : Bool :=
  s.map lowerCode = target.map Char.toNat

/-- Python `str.split(sep)` for a one-character separator. -/
def splitOnCharL (sep : Char) : List Char → List (List Char)
  | [] => [[]]
  | x :: rest =>
    let r := splitOnCharL sep rest
    if x = sep then [] :: r
    else
      match r with
      | h :: t => (x :: h) :: t
      | [] => [[x]]

/-- Python `str.split(sep)` for a non-empty separator; the structural
`fuel` argument (one unit per consumed character) never binds because the
wrapper passes the input length. -/
def splitOnLGo (sep : List Char) : Nat → List Char → List Char → List (List Char)
  | _, [], acc => [acc.reverse]
  | 0, l, acc => [acc.reverse ++ l]
  | fuel + 1, x :: rest, acc =>
    if sep.isPrefixOf (x :: rest) ∧ sep ≠ [] then
      (acc.reverse) :: splitOnLGo sep fuel ((x :: rest).drop sep.length) []
    else splitOnLGo sep fuel rest (x :: acc)

/-- Python `str.split(sep)`. -/
def splitOnL (sep l : List Char) : List (List Char) :=
  splitOnLGo sep l.length l []

/-- Python `str.strip()` (ASCII whitespace). -/
def trimL (l : List Char) : List Char :=
  ((l.dropWhile Char.isWhitespace).reverse.dropWhile Char.isWhitespace).reverse

/-- `strip` on strings. -/
def trimS (s : String) : String := String.mk (trimL s.toList)

/-- Python `sep.join(parts)`. -/
def intercalateS (sep : String) : List String → String
  | [] => ""
  | [x] => x
  | x :: y :: xs => x ++ sep ++ intercalateS sep (y :: xs)

/-- Lexicographic string comparison by code point (Python `<`). -/
def charListLt : List Char → List Char → Bool
  | [], [] => false
  | [], _ :: _ => true
  | _ :: _, [] => false
  | a :: as, b :: bs =>
    if a.toNat < b.toNat then true
    else if b.toNat < a.toNat then false
    else charListLt as bs


/-- `Register` from `pycc/asm/register.py`: a named machine register.
`val` is the raw 4-bit code (`_val`), `bits` the register width. -/
structure Register where
  val : Nat
  name : String
  bits : Nat
deriving DecidableEq

/-- The `val` property of the source: the low three bits of the register
code (`_val & 0b111`, written here as `% 8`). -/
def Register.val3 (r : Register) : Nat := r.val % 8

/-- The `rex` property of the source: whether the 4th bit of the register
code is set (`_val & 0b1000 > 0`, written here via `% 16`). -/
def Register.rexb (r : Register) : Bool := decide (8 ≤ r.val % 16)

/-- `Register.check_arch`: on a 32-bit process a register whose name starts
with the letter r is rejected. -/
def Register.check_arch (arch : Nat) (r : Register) : Except String Unit :=
  if arch = 32 ∧ strStartsWith r.name "r" then
    .error ("Register " ++ r.name ++ " not supported on 32 bit arch.")
  else .ok ()

def ax : Register := ⟨0b000, "ax", 16⟩
def cx : Register := ⟨0b001, "cx", 16⟩
def dx : Register := ⟨0b010, "dx", 16⟩
def bx : Register := ⟨0b011, "bx", 16⟩
def sp : Register := ⟨0b100, "sp", 16⟩
def bp : Register := ⟨0b101, "bp", 16⟩
def si : Register := ⟨0b110, "si", 16⟩
def di : Register := ⟨0b111, "di", 16⟩

def eax : Register := ⟨0b000, "eax", 32⟩
def ecx : Register := ⟨0b001, "ecx", 32⟩
def edx : Register := ⟨0b010, "edx", 32⟩
def ebx : Register := ⟨0b011, "ebx", 32⟩
def esp : Register := ⟨0b100, "esp", 32⟩
def ebp : Register := ⟨0b101, "ebp", 32⟩
def esi : Register := ⟨0b110, "esi", 32⟩
def edi : Register := ⟨0b111, "edi", 32⟩

def rax : Register := ⟨0b000, "rax", 64⟩
def rcx : Register := ⟨0b001, "rcx", 64⟩
def rdx : Register := ⟨0b010, "rdx", 64⟩
def rbx : Register := ⟨0b011, "rbx", 64⟩
def rsp : Register := ⟨0b100, "rsp", 64⟩
def rbp : Register := ⟨0b101, "rbp", 64⟩
def rsi : Register := ⟨0b110, "rsi", 64⟩
def rdi : Register := ⟨0b111, "rdi", 64⟩

def r8 : Register := ⟨0b1000, "r8", 64⟩
def r9 : Register := ⟨0b1001, "r9", 64⟩
def r10 : Register := ⟨0b1010, "r10", 64⟩
def r11 : Register := ⟨0b1011, "r11", 64⟩
def r12 : Register := ⟨0b1100, "r12", 64⟩
def r13 : Register := ⟨0b1101, "r13", 64⟩
def r14 : Register := ⟨0b1110, "r14", 64⟩
def r15 : Register := ⟨0b1111, "r15", 64⟩

/-- `Pointer` from `pycc/asm/pointer.py`: an effective-address value.
`bits` is the `_bits` data-width override (`None` on construction unless
set through `byte`/`word`/`dword`/`qword`). -/
structure Pointer where
  reg1 : Option Register
  scale : Option Nat
  reg2 : Option Register
  disp : Option Int
  bits : Option Nat
deriving DecidableEq

/-- `Pointer.copy`: `Pointer(self.reg1, self.scale, self.reg2, self.disp)`.
The constructor leaves `_bits` at `None`, so the copy drops the width. -/
def Pointer.copy (p : Pointer) : Pointer := ⟨p.reg1, p.scale, p.reg2, p.disp, none⟩

/-- The REX prefix bit constants of `pycc/asm/pointer.py` (`rex.w` etc.). -/
def rexW : Nat := 0b01001000

/-- REX.R: extension of the ModR/M reg field. -/
def rexR : Nat := 0b01000100

/-- REX.X: extension of the SIB index field. -/
def rexX : Nat := 0b01000010

/-- REX.B: extension of the ModR/M r/m, SIB base, or opcode reg field. -/
def rexB : Nat := 0b01000001

/-- The four keys of `mod_vals` in `pycc/asm/pointer.py`. -/
inductive Mod where
  | ind
  | ind8
  | ind32
  | dir
deriving DecidableEq

/-- `mod_vals`: the two mod bits positioned in the high bits of a byte. -/
def Mod.val : Mod → Nat
  | .ind => 0b00000000
  | .ind8 => 0b01000000
  | .ind32 => 0b10000000
  | .dir => 0b11000000

/-- The `reg` argument of `mod_reg_rm`: a register or a 3-bit opcode
extension digit. -/
inductive RegField where
  | reg (r : Register)
  | ext (n : Nat)
deriving DecidableEq

/-- The numeric field value placed in the ModR/M reg bits. -/
def RegField.value : RegField → Nat
  | .reg r => r.val3
  | .ext n => n

/-- The `rm` argument of `mod_reg_rm`: the literal `sib` or `disp` markers
of the source, or a register. -/
inductive RmField where
  | sib
  | disp
  | reg (r : Register)
deriving DecidableEq

/-- `mod_reg_rm` from `pycc/asm/pointer.py`: build the ModR/M byte and the
REX extension bits contributed by its register arguments. -/
def mod_reg_rm (mod : Mod) (reg : RegField) (rm : RmField) : Nat × Bytes :=
  let rex1 : Nat := match reg with
    | .reg r => if r.rexb then rexR else 0
    | .ext _ => 0
  let rex2 : Nat := match rm with
    | .reg r => if r.rexb then rexB else 0
    | _ => 0
  let rmv : Nat := match rm with
    | .sib => 0b100
    | .disp => 0b101
    | .reg r => r.val3
  (rex1 ||| rex2, [mod.val ||| reg.value <<< 3 ||| rmv])

/-- The `base` argument of `mk_sib`: a register or the `disp` marker. -/
inductive SibBase where
  | disp
  | reg (r : Register)
deriving DecidableEq

/-- Raise the given message unless the condition holds. -/
def ensure (b : Bool) (msg : String) : Except String Unit :=
  if b then .ok () else .error msg

/-- `mk_sib` from `pycc/asm/pointer.py`: build the SIB byte and its REX
extension bits.  A missing offset encodes as `rsp` (no index); a `disp`
base encodes as `rbp`; registers narrower than 32 bits are rejected. -/
def mk_sib (byts : Nat) (off : Option Register) (base : SibBase) : Except String (Nat × Bytes) := do
  let (rex1, offr) ← (match off with
    | none => .ok ((0 : Nat), rsp)
    | some o =>
        if o.bits < 32 then .error ("Invalid register " ++ o.name ++ " for SIB address")
        else .ok ((if o.rexb then rexX else 0), o) : Except String (Nat × Register))
  let (rex2, baser) ← (match base with
    | .disp => .ok ((0 : Nat), rbp)
    | .reg b =>
        if b.bits < 32 then .error ("Invalid register " ++ b.name ++ " for SIB address")
        else .ok ((if b.rexb then rexB else 0), b) : Except String (Nat × Register))
  .ok (rex1 ||| rex2, [byts <<< 6 ||| offr.val3 <<< 3 ||| baser.val3])

/-- The run-time type of a value combined with a `Pointer` or `Register`
through the overloaded `+` operator. -/
inductive Val where
  | reg (r : Register)
  | int (n : Int)
  | ptr (p : Pointer)
deriving DecidableEq

/-- `Pointer.__add__` restricted to an integer argument
(`pycc/asm/pointer.py`): copy, then set or increase the displacement.
This case never raises. -/
def Pointer.addInt (self : Pointer) (n : Int) : Pointer :=
  let y := self.copy
  match y.disp with
  | none => ⟨y.reg1, y.scale, y.reg2, some n, y.bits⟩
  | some d => ⟨y.reg1, y.scale, y.reg2, some (d + n), y.bits⟩

/-- `Pointer.__add__` restricted to a `Register` argument: copy, then fill
`reg1` or `reg2`, rejecting a third register. -/
def Pointer.addRegister (self : Pointer) (r : Register) : Except String Pointer :=
  let y := self.copy
  if y.reg1 = none then .ok ⟨some r, y.scale, y.reg2, y.disp, y.bits⟩
  else if y.reg2 = none then .ok ⟨y.reg1, y.scale, some r, y.disp, y.bits⟩
  else .error "Pointer cannot incorporate more than two registers."

/-- `Pointer.__add__` from `pycc/asm/pointer.py`.  The integer and register
cases are the two helpers above; the `Pointer` case folds in the other
pointer piece by piece (displacement, then `reg2`, then `reg1` with its
scale), re-entering `__add__` for each piece exactly as the source does. -/
def Pointer.add (self : Pointer) (x : Val) : Except String Pointer :=
  match x with
  | .reg r => self.addRegister r
  | .int n => .ok (self.addInt n)
  | .ptr xp => do
    let y := self.copy
    let y := match xp.disp with
      | some d => y.addInt d
      | none => y
    let y ← match xp.reg2 with
      | some r => y.addRegister r
      | none => .ok y
    match xp.reg1, xp.scale with
    | some r, none => y.addRegister r
    | some r, some s =>
        if y.scale ≠ none then
          .error "Pointer can only hold one scaled register."
        else if y.reg1 ≠ none then
          if y.reg2 ≠ none then
            .error "Pointer cannot incorporate more than two registers."
          else
            -- move reg1 to reg2 to make room for the new scaled reg1
            .ok ⟨some r, some s, y.reg1, y.disp, y.bits⟩
        else .ok ⟨some r, some s, y.reg2, y.disp, y.bits⟩
    | none, _ => .ok y

/-- `Register.__add__` from `pycc/asm/register.py`: two registers build a
pointer with both slots filled, a register and an integer build a pointer
with a displacement, and a pointer argument defers to `Pointer.__add__`.
`__radd__` delegates to `__add__`, so `d + r` evaluates as `r.add (.int d)`. -/
def Register.add (self : Register) (x : Val) : Except String Pointer :=
  match x with
  | .reg r => .ok ⟨some self, none, some r, none, none⟩
  | .ptr p => p.add (.reg self)
  | .int n => .ok ⟨some self, none, none, some n, none⟩

/-- `Pointer.prefix` from `pycc/asm/pointer.py` (renamed because `prefix`
is reserved in Lean): the 0x67 address-size byte when the participating
registers are half the process width. -/
def Pointer.addrPrefix (arch : Nat) (self : Pointer) : Bytes :=
  let regs := (self.reg1.toList ++ self.reg2.toList).map Register.bits
  if regs = [] then []
  else if regs.foldr max 0 = arch / 2 then [0x67] else []

/-- `Pointer.check_arch` from `pycc/asm/pointer.py`. -/
def Pointer.check_arch (arch : Nat) (self : Pointer) : Except String Unit := do
  let _ ← match self.reg1 with
    | some r => r.check_arch arch
    | none => .ok ()
  match self.reg2 with
  | some r => r.check_arch arch
  | none => .ok ()

/-- `Pointer.modrm16` from `pycc/asm/pointer.py`: the fixed 16-bit
addressing table.  The register pair is sorted by name and looked up in
`rm_vals`; `bp` alone with no displacement forces an 8-bit zero
displacement; scale is rejected. -/
def Pointer.modrm16 (self : Pointer) (reg : RegField) : Except String (Nat × Bytes) := do
  let _ ← ensure (match self.scale with | none => true | some s => s == 0)
    "Scale not valid in 16-bit addressing mode."
  let regs0 := self.reg1.toList ++ self.reg2.toList
  let regs := match regs0 with
    | [a, b] => if charListLt b.name.toList a.name.toList then [b, a] else [a, b]
    | l => l
  let rm ← (if regs = [bx, si] then .ok 0b000
    else if regs = [bx, di] then .ok 0b001
    else if regs = [bp, si] then .ok 0b010
    else if regs = [bp, di] then .ok 0b011
    else if regs = [si] then .ok 0b100
    else if regs = [di] then .ok 0b101
    else if regs = [bp] then .ok 0b110
    else if regs = [bx] then .ok 0b111
    else if regs = [] then .ok 0b110
    else .error "Invalid 16-bit address" : Except String Nat)
  let dispIsZero : Bool := match self.disp with
    | none => true
    | some d => d == 0
  let dm ← (if dispIsZero then
      if regs = [bp] then .ok (([0] : Bytes), (0b01000000 : Nat))
      else .ok (([] : Bytes), (0 : Nat))
    else do
      let d := self.disp.getD 0
      if regs = [] then do
        let b ← pack_int d false true false false true
        .ok (b, (0 : Nat))
      else do
        let b ← pack_int d true true false false true
        match b.length with
        | 1 => .ok (b, (0b01000000 : Nat))
        | 2 => .ok (b, (0b10000000 : Nat))
        | _ => .error "KeyError: displacement length"
    : Except String (Bytes × Nat))
  .ok (0, (dm.2 ||| reg.value <<< 3 ||| rm) :: dm.1)

/-- The register size checks at the top of `Pointer.modrm_sib`
(`pycc/asm/pointer.py`): each address register must be at least half the
process bitness, and two registers must agree in size. -/
def Pointer.sizeChecks (arch : Nat) (self : Pointer) : Except String Unit := do
  -- check address size is supported
  let _ ← match self.reg1 with
    | some r => ensure (decide (¬ r.bits < arch / 2)) ("Invalid register for pointer: " ++ r.name)
    | none => .ok ()
  let _ ← match self.reg2 with
    | some r => ensure (decide (¬ r.bits < arch / 2)) ("Invalid register for pointer: " ++ r.name)
    | none => .ok ()
  -- both registers must have the same size
  match self.reg1, self.reg2 with
  | some a, some b =>
      ensure (a.bits == b.bits)
        ("Cannot compile pointer from registers of different size: " ++ a.name ++ ", " ++ b.name)
  | _, _ => .ok ()

/-- `Pointer.modrm_sib` from `pycc/asm/pointer.py`: the ModR/M byte, the
optional SIB byte and the optional displacement bytes for this effective
address, together with the REX extension bits to OR into the REX byte.
`arch` is the module-level `ARCH` (process bitness). -/
def Pointer.modrm_sib (arch : Nat) (self : Pointer) (reg : RegField) : Except String (Nat × Bytes) := do
  let _ ← self.sizeChecks arch
  if (self.reg1.any (fun r => r.bits == 16)) || (self.reg2.any (fun r => r.bits == 16)) then
    -- branch to the 16-bit addressing mode
    self.modrm16 reg
  else do
  -- simple displacement parsing
  let dm ← (match self.disp with
    | none => .ok (([] : Bytes), Mod.ind)
    | some d =>
      if d = 0 then .ok (([] : Bytes), Mod.ind)
      else do
        let b ← pack_int d true false true false true
        match b.length with
        | 1 => .ok (b, Mod.ind8)
        | 4 => .ok (b, Mod.ind32)
        | _ => .error "KeyError: displacement length"
    : Except String (Bytes × Mod))
  let disp0 := dm.1
  let mod0 := dm.2
  let noScale : Bool := match self.scale with
    | none => true
    | some s => s == 0
  if noScale then
    -- no scale: free to reorder the registers
    let regs := self.reg1.toList ++ self.reg2.toList
    match regs with
    | [] => do
        -- displacement only
        let _ ← ensure (self.disp ≠ none) "Cannot encode empty pointer."
        let disp ← (match packSigned 4 (self.disp.getD 0) with
          | some b => .ok b
          | none => .error "struct.error: argument out of range" : Except String Bytes)
        if arch = 32 then
          let (mrex, modrm) := mod_reg_rm Mod.ind reg RmField.disp
          .ok (mrex, modrm ++ disp)
        else do
          let (mrex, modrm) := mod_reg_rm Mod.ind reg RmField.sib
          let (srex, sib) ← mk_sib 0 none SibBase.disp
          .ok (mrex ||| srex, modrm ++ sib ++ disp)
    | [r0] =>
        if r0.val3 = 4 then do
          -- cannot go in r/m; use SIB instead
          let (mrex, modrm) := mod_reg_rm mod0 reg RmField.sib
          let (srex, sib) ← mk_sib 0 (some rsp) (SibBase.reg r0)
          .ok (mrex ||| srex, modrm ++ sib ++ disp0)
        else if r0.val3 = 5 ∧ disp0 = [] then
          let (mrex, modrm) := mod_reg_rm Mod.ind8 reg (RmField.reg r0)
          .ok (mrex, modrm ++ [0])
        else
          let (mrex, modrm) := mod_reg_rm mod0 reg (RmField.reg r0)
          .ok (mrex, modrm ++ disp0)
    | [a, b] => do
        -- two registers, reversed to match GNU ordering
        let step ← (if b = sp ∨ b = esp ∨ b = rsp then
            if a = sp ∨ a = esp ∨ a = rsp then
              .error ("Cannot encode registers in SIB: " ++ b.name ++ "+" ++ a.name)
            else
              -- keep *sp out of the offset slot: reverse back
              .ok ([a, b], mod0, disp0)
          else if a.val3 = 5 ∧ disp0 = [] then
            -- *bp base needs an 8-bit zero displacement
            .ok ([b, a], Mod.ind8, ([0] : Bytes))
          else .ok ([b, a], mod0, disp0) : Except String (List Register × Mod × Bytes))
        match step with
        | ([o, bs], modF, dispF) => do
            let (mrex, modrm) := mod_reg_rm modF reg RmField.sib
            let (srex, sib) ← mk_sib 0 (some o) (SibBase.reg bs)
            .ok (mrex ||| srex, modrm ++ sib ++ dispF)
        | _ => .error "unreachable"
    | _ => .error "unreachable"
  else do
    -- scaled index present: must use SIB and keep register order
    let byts ← (match self.scale with
      | none => .ok (0 : Nat)
      | some 1 => .ok 0
      | some 2 => .ok 1
      | some 4 => .ok 2
      | some 8 => .ok 3
      | some _ => .error "KeyError: scale" : Except String Nat)
    match self.reg1 with
    | none => .error "Cannot have SIB scale without offset register."
    | some off => do
        let _ ← ensure (!(off.val3 == 4 && !off.rexb))
          ("Cannot encode register " ++ off.name ++ " as SIB offset.")
        let (mod1, disp1) := match self.reg2 with
          | some bs => if bs.val3 = 5 ∧ disp0 = [] then (Mod.ind8, ([0] : Bytes)) else (mod0, disp0)
          | none => (mod0, disp0)
        let (baseF, mod2, disp2) := match self.reg2 with
          | none => (rbp, Mod.ind, disp1 ++ List.replicate (4 - disp1.length) 0)
          | some bs => (bs, mod1, disp1)
        let (mrex, modrm) := mod_reg_rm mod2 reg RmField.sib
        let (srex, sib) ← mk_sib byts (some off) (SibBase.reg baseF)
        .ok (mrex ||| srex, modrm ++ sib ++ disp2)

/-- Python `str.lstrip(chars)` on a character list. -/
def lstripSet (l : List Char) (set : List Char) : List Char :=
  l.dropWhile (fun c => set.contains c)

/-- Python `str.rstrip(chars)` on a character list. -/
def rstripSet (l : List Char) (set : List Char) : List Char :=
  (l.reverse.dropWhile (fun c => set.contains c)).reverse

/-- Python `int(s)` with the surrounding `try`/`except ValueError` of
`check_mode`: a non-numeric or empty string becomes 0. -/
def intOr0 (l : List Char) : Nat :=
  (toNatL l).getD 0

/-- Python substring test `sub in s`. -/
def containsSub (l sub : List Char) : Bool :=
  (List.range (l.length + 1)).any (fun i => (l.drop i).take sub.length = sub)

/-- The character set `irel/xm` stripped from the front of operand tags in
`Instruction.check_mode` (`pycca/asm/instruction.py`). -/
def stripChars : List Char := ['i', 'r', 'e', 'l', '/', 'x', 'm']

/-- The result of `Instruction.check_mode`: `True`, `False`, or an integer
marking a mode that is encodable but not preferred (the source only ever
returns the integer 0). -/
inductive CheckRes where
  | t
  | f
  | weak (k : Int)
deriving DecidableEq

lemma containsSub_ne_nil {l sub : List Char} (hs : sub ≠ []) (h : containsSub l sub = true) :
    l ≠ [] := by
  intro hl
  subst hl
  simp only [containsSub, List.length_nil, List.any_eq_true, List.mem_range] at h
  obtain ⟨i, _, heq⟩ := h
  simp only [List.drop_nil, List.take_nil, decide_eq_true_eq] at heq
  exact hs heq.symm

/-- The `stype` / `mtype` computation of `Instruction.check_mode`
(`pycca/asm/instruction.py`): the tag with its bit suffix stripped. -/
def tagType (s : List Char) : List Char :=
  let bits0 := lstripSet s stripChars
  if bits0.length > 0 then s.take (s.length - bits0.length) else s

/-- `sbits = sig.lstrip('irel/xm').rstrip('u')` of `check_mode`, as the
integer it is coerced to (`int(...)` with a 0 fallback). -/
def sigBits (s : List Char) : Int := intOr0 (rstripSet (lstripSet s stripChars) ['u'])

/-- `mbits = mode.lstrip('irel/xm').rstrip('fpint')` of `check_mode`, as
the integer it is coerced to. -/
def modeBits (m : List Char) : Int :=
  intOr0 (rstripSet (lstripSet m stripChars) ['f', 'p', 'i', 'n', 't'])

/-- `Instruction.check_mode` from `pycca/asm/instruction.py`: decide whether
an argument of tag `sig` may satisfy operand tag `mode`.  Tag strings are
taken apart with `lstrip`/`rstrip` exactly as the source does; an `xmm1/m64`
style mode re-enters the check on its memory half.  The structural `fuel`
argument bounds that re-entry; it never binds, because each re-entry
strictly shortens `mode` and the wrapper passes `mode.length`. -/
def check_modeGo (fuel : Nat) (sig mode : List Char) : Except String CheckRes :=
  let stype := tagType sig
  let mtype := tagType mode
  let mbits := modeBits mode
  let sbits := sigBits sig
  if mtype = ['r'] then
    .ok (if stype = ['r'] ∧ mbits = sbits then .t else .f)
  else if mtype = ['r', '/', 'm'] then
    .ok (if (stype = ['r'] ∨ stype = ['m']) ∧ (sbits = 0 ∨ mbits = sbits) then .t else .f)
  else if mtype = ['i', 'm', 'm'] then
    if stype ≠ ['i', 'm', 'm'] then .ok .f
    else if sbits ≤ mbits then .ok .t
    else if sig.getLast? = some 'u' ∧ sbits / 2 ≤ mbits then .ok (.weak 0)
    else .ok .f
  else if mtype = ['r', 'e', 'l'] then
    .ok (if stype = ['r', 'e', 'l'] then .t else .f)
  else if mtype = ['m'] then
    if stype ≠ ['m'] then .ok .f
    else if mbits > 0 ∧ sbits > 0 ∧ mbits ≠ sbits then .ok .f
    else .ok .t
  else if mtype = ['x', 'm', 'm'] then
    if stype = ['x', 'm', 'm'] then .ok .t
    else if containsSub mode ['/', 'm'] ∧ stype = ['m'] then
      match fuel with
      | 0 => .error "recursion bound exhausted"
      | n + 1 => check_modeGo n sig (mode.drop ((mode.indexOf '/') + 1))
    else .ok .f
  else if lowerEqL mode "st(i)".toList then
    .ok (if startsWithL sig "st(".toList then .t else .f)
  else if lowerEqL mode "st(0)".toList then
    .ok (if mode = sig then .t else .f)
  else
    .error ("Invalid operand type " ++ String.mk mtype)

/-- `check_mode` on character lists, with the fuel set to the length of
`mode` (the re-entry always moves to a strictly shorter suffix). -/
def check_modeL (sig mode : List Char) : Except String CheckRes :=
  check_modeGo mode.length sig mode

/-- `check_mode` on strings. -/
def check_mode (sig mode : String) : Except String CheckRes :=
  check_modeL sig.toList mode.toList

/-- One instruction mode of a per-mnemonic table: the opcode template
string, the operand-encoding key, and the 64-bit / 32-bit availability
flags (the four-element lists of `pycca/asm/instructions.py`). -/
structure ModeV where
  opcode : String
  enc : Option String
  ok64 : Bool
  ok32 : Bool
deriving DecidableEq

/-- An operand signature: a tuple of tag strings. -/
abbrev Sig := List String

/-- A per-mnemonic mode table, in declaration order. -/
abbrev ModeTable := List (Sig × ModeV)

/-- The arch filter of `select_instruction_mode`: keep the modes whose
64-bit (`archind = 2`) or 32-bit (`archind = 3`) flag is set. -/
def archFilter (arch : Nat) (modes : ModeTable) : ModeTable :=
  modes.filter (fun sm => if arch = 64 then sm.2.ok64 else sm.2.ok32)

/-- Ordered-dict key lookup (`sig in modes` / `modes[sig]`). -/
def lookupSig (modes : ModeTable) (sig : Sig) : Option ModeV :=
  match modes with
  | [] => none
  | (s, m) :: rest => if s = sig then some m else lookupSig rest sig

/-- Result of testing one candidate mode against the supplied signature:
all operands check `True`; some operand checks `False`; or all pass with
at least one returning an integer (kept as the running minimum). -/
inductive RowRes where
  | strong
  | no
  | weak (k : Int)
deriving DecidableEq

/-- The inner loop of `select_instruction_mode`: walk the operand pairs,
stopping at the first `False`, accumulating the minimum integer of any
non-preferred checks. -/
def checkRow : List (String × String) → Option Int → Except String RowRes
  | [], none => .ok .strong
  | [], some k => .ok (.weak k)
  | (s, m) :: rest, acc => do
    let c ← check_mode s m
    match c with
    | .t => checkRow rest acc
    | .f => .ok .no
    | .weak k =>
      checkRow rest (some (match acc with | none => k | some a => min a k))

/-- The outer loop of `select_instruction_mode`: try candidates in
declaration order, returning the first full match immediately and keeping
a backup of the best weak match (`backup_mode[0] < usemode` replaces). -/
def selectLoop (sig : Sig) (modes : ModeTable) (backup : Option (Int × Sig × ModeV)) :
    Except String (Option (Sig × ModeV)) :=
  match modes with
  | [] => .ok (backup.map (fun b => b.2))
  | (mode, mv) :: rest =>
    if mode.length ≠ sig.length then selectLoop sig rest backup
    else do
      let r ← checkRow (sig.zip mode) none
      match r with
      | .strong => .ok (some (mode, mv))
      | .no => selectLoop sig rest backup
      | .weak k =>
        let backup1 := match backup with
          | none => some (k, mode, mv)
          | some b => if b.1 < k then some (k, mode, mv) else some b
        selectLoop sig rest backup1

/-- The error text of `select_instruction_mode` for an unsupported
signature, naming the mnemonic and the supplied tag tuple. -/
def errNoMode (name : String) (sig : Sig) : String :=
  "Argument types not accepted for instruction " ++ name ++ ": (" ++
    intercalateS ", " sig ++ ")"

/-- `Instruction.select_instruction_mode` from `pycca/asm/instruction.py`:
filter the mode table by process bitness, take an exact signature key if
present, otherwise scan candidates (strong match first, then the backup
weak match), and fail with a `TypeError` naming mnemonic and signature. -/
def select_instruction_mode (arch : Nat) (name : String) (modes : ModeTable) (sig : Sig) :
    Except String (Sig × ModeV) := do
  let modesF := archFilter arch modes
  match lookupSig modesF sig with
  | some mv => .ok (sig, mv)
  | none =>
    match ← selectLoop sig modesF none with
    | some sm => .ok sm
    | none => .error (errNoMode name sig)

/-- An instruction argument as accepted by `Instruction.__init__` in
`pycca/asm/instruction.py` (a list argument is already converted to a
`Pointer` there): register, pointer, integer, or a raw byte string. -/
inductive Arg where
  | reg (r : Register)
  | ptr (p : Pointer)
  | int (n : Int)
  | bytes (b : Bytes)
deriving DecidableEq

/-- The signature tag of one argument, from
`Instruction.read_signature` (`pycca/asm/instruction.py`).  Integers are
packed signed into the smallest width; a positive value that packs
smaller unsigned receives the `u` hint suffix. -/
def argSig (arch : Nat) (arg : Arg) : Except String String :=
  match arg with
  | .reg r => do
    let _ ← r.check_arch arch
    if strStartsWith r.name "xmm" then .ok "xmm"
    else if strStartsWith r.name "st(" then .ok r.name
    else .ok ("r" ++ toString r.bits)
  | .ptr p => do
    let _ ← p.check_arch arch
    match p.bits with
    | none => .ok "m"
    | some b => .ok ("m" ++ toString b)
  | .int n => do
    let imm ← pack_int n true true true true false
    let bits := 8 * imm.length
    if 0 < n then do
      let immu ← pack_uint n true true true true
      let ubits := 8 * immu.length
      if ubits < bits then .ok ("imm" ++ toString bits ++ "u")
      else .ok ("imm" ++ toString bits)
    else .ok ("imm" ++ toString bits)
  | .bytes b =>
    if b.length = 1 ∨ b.length = 2 ∨ b.length = 4 ∨ b.length = 8 then
      .ok ("imm" ++ toString (b.length * 8))
    else .error ("Invalid immediate operand length: " ++ toString b.length)

/-- `Instruction.read_signature`: the tag tuple of the supplied arguments.
In this draft the cleaned argument list is the argument list itself. -/
def read_signature (arch : Nat) (args : List Arg) : Except String (Sig × List Arg) := do
  let sig ← args.mapM (argSig arch)
  .ok (sig, args)

/-- The accumulating state of `Instruction.parse_operands`. -/
structure PO where
  prefixes : List Bytes
  rex : Nat
  opcodeReg : Option Nat
  reg : Option Arg
  rm : Option Arg
  imm : Option Bytes
deriving DecidableEq

/-- Python `arg.bits == 16` for an operand; integers and byte strings have
no `bits` attribute. -/
def argBits16 : Arg → Except String Bool
  | .reg r => .ok (r.bits == 16)
  | .ptr p => .ok (p.bits == some 16)
  | .int _ => .error "AttributeError: bits"
  | .bytes _ => .error "AttributeError: bits"

/-- Operand-encoding dictionary lookup (`operand_enc[mode[1]]`); a `None`
or unknown key is a Python `KeyError`.  The source performs this lookup
inside the operand loop, so an instruction without operands never
evaluates it. -/
def lookupEnc (encs : List (String × List (Option String))) (key : Option String) :
    Except String (List (Option String)) :=
  match key with
  | none => .error "KeyError: operand encoding"
  | some k =>
    match encs with
    | [] => .error "KeyError: operand encoding"
    | (k0, v) :: rest => if k0 = k then .ok v else lookupEnc rest (some k)

/-- One iteration of the `parse_operands` loop for operand `i`. -/
def parse_operands_step (arch : Nat) (use_sig : Sig)
    (operand_enc : List (String × List (Option String))) (encKey : Option String)
    (acc : PO) (i : Nat) (arg : Arg) : Except String PO := do
  let encList ← lookupEnc operand_enc encKey
  let enc? ← match encList.get? i with
    | some e => .ok e
    | none => .error "IndexError: operand encoding"
  match enc? with
  | none => .ok acc
  | some enc =>
    if strStartsWith enc "opcode +rd" then
      match arg with
      | .reg r =>
        let rex1 := if r.rexb then acc.rex ||| rexB else acc.rex
        let pfx := if r.bits == 16 && !(acc.prefixes.contains [0x66])
          then acc.prefixes ++ [[0x66]] else acc.prefixes
        .ok { acc with opcodeReg := some r.val3, rex := rex1, prefixes := pfx }
      | _ => .error "AttributeError: val"
    else if strStartsWith enc "ModRM:r/m" then do
      let b16 ← argBits16 arg
      let pfx := if b16 && !(acc.prefixes.contains [0x66])
        then acc.prefixes ++ [[0x66]] else acc.prefixes
      let pfx := match arg with
        | .ptr p =>
          let ap := p.addrPrefix arch
          if ap ≠ [] then pfx ++ [ap] else pfx
        | _ => pfx
      .ok { acc with rm := some arg, prefixes := pfx }
    else if strStartsWith enc "ModRM:reg" then do
      let b16 ← argBits16 arg
      let pfx := if b16 && !(acc.prefixes.contains [0x66])
        then acc.prefixes ++ [[0x66]] else acc.prefixes
      .ok { acc with reg := some arg, prefixes := pfx }
    else if strStartsWith enc "imm" then do
      let sigEntry ← match use_sig.get? i with
        | some s => .ok s
        | none => .error "IndexError: use_sig"
      let immsizeL := rstripSet (sigEntry.toList.drop 3) ['u']
      let immsize ← match toNatL immsizeL with
        | some n => .ok n
        | none => .error "ValueError: invalid int literal"
    -- width in bytes via the styp dictionary; a missing key is a KeyError
      let w ← (if immsize = 8 then .ok 1
        else if immsize = 16 then .ok 2
        else if immsize = 32 then .ok 4
        else if immsize = 64 then .ok 8
        else .error "KeyError: imm size" : Except String Nat)
      let packed ← (match arg with
        | .int n =>
          match packSigned w n with
          | some b => .ok b
          | none =>
            -- signed failed; retry unsigned at the same width
            (match packUnsigned w n with
             | some b => .ok b
             | none => .error "struct.error: argument out of range")
        | .bytes b => .ok b
        | .reg _ => .error "TypeError: object of type Register has no len"
        | .ptr _ => .error "TypeError: object of type Pointer has no len"
        : Except String Bytes)
      let opsize := 8 * packed.length
      let _ ← ensure (opsize ≤ immsize) "AssertionError: opsize <= immsize"
      .ok { acc with imm := some (packed ++ List.replicate ((immsize - opsize) / 8) 0) }
    else .error ("Invalid operand encoding: " ++ enc)

/-- Total order used by `prefixes.sort(reverse=True)`: byte-string
lexicographic comparison. -/
def bytesLt : Bytes → Bytes → Bool
  | [], [] => false
  | [], _ :: _ => true
  | _ :: _, [] => false
  | a :: as, b :: bs => if a < b then true else if b < a then false else bytesLt as bs

/-- Stable descending insertion used to model `list.sort(reverse=True)`. -/
def insertDesc (x : Bytes) : List Bytes → List Bytes
  | [] => [x]
  | y :: ys => if bytesLt y x then x :: y :: ys else y :: insertDesc x ys

/-- `list.sort(reverse=True)` over the collected prefix strings. -/
def sortDesc : List Bytes → List Bytes
  | [] => []
  | x :: xs => insertDesc x (sortDesc xs)

/-- The loop of `parse_operands` over the cleaned arguments. -/
def parse_operands_go (arch : Nat) (use_sig : Sig)
    (operand_enc : List (String × List (Option String))) (encKey : Option String) :
    Nat → List Arg → PO → Except String PO
  | _, [], acc => .ok acc
  | i, a :: rest, acc => do
    let acc1 ← parse_operands_step arch use_sig operand_enc encKey acc i a
    parse_operands_go arch use_sig operand_enc encKey (i + 1) rest acc1

/-- `Instruction.parse_operands` from `pycca/asm/instruction.py`: route each
operand to its encoding slot, collect prefixes and REX bits, and finally
sort the prefixes descending so 0x67 precedes 0x66. -/
def parse_operands (arch : Nat) (clean_args : List Arg)
    (operand_enc : List (String × List (Option String))) (use_sig : Sig) (mv : ModeV) :
    Except String PO := do
  let acc ← parse_operands_go arch use_sig operand_enc mv.enc 0 clean_args
    ⟨[], 0, none, none, none, none⟩
  .ok { acc with prefixes := sortDesc acc.prefixes }

/-- An argument of `ModRmSib` (`pycc/asm/modrm.py`) after `interpret`:
an opcode-extension integer below 8, a register, or a pointer. -/
inductive MArg where
  | ext (n : Nat)
  | reg (r : Register)
  | ptr (p : Pointer)
deriving DecidableEq

/-- The `isinstance` classification in `ModRmSib.__init__`. -/
def MArg.ofArg : Arg → Except String MArg
  | .reg r => .ok (.reg r)
  | .ptr p => .ok (.ptr p)
  | .int n =>
    if 0 ≤ n ∧ n < 8 then .ok (.ext n.toNat)
    else .error "Arguments must be Register, Pointer, or opcode extension."
  | .bytes _ => .error "Arguments must be Register, Pointer, or opcode extension."

/-- `ModRmSib` from `pycc/asm/modrm.py`: compose the ModR/M byte (and SIB,
displacement) for the selected reg and r/m slots, returning the REX bits
to OR into the instruction REX byte.  A register r/m uses direct mode; a
pointer r/m defers to `Pointer.modrm_sib`. -/
def ModRmSib (arch : Nat) (a? : Option MArg) (b : MArg) : Except String (Nat × Bytes) := do
  let a ← match a? with
    | some x => .ok x
    | none => .error "Arguments must be Register, Pointer, or opcode extension."
  match a, b with
  | .reg ra, .reg rb =>
    -- argtypes rr: direct mode, REX.R and REX.B recomputed from the registers
    let (_, code) := mod_reg_rm Mod.dir (RegField.reg ra) (RmField.reg rb)
    let rex1 := if ra.rexb then rexR else 0
    let rex2 := if rb.rexb then rexB else 0
    .ok (rex1 ||| rex2, code)
  | .ext na, .reg rb =>
    -- argtypes xr
    let (_, code) := mod_reg_rm Mod.dir (RegField.ext na) (RmField.reg rb)
    let rex2 := if rb.rexb then rexB else 0
    .ok (rex2, code)
  | .ptr pa, .reg rb => pa.modrm_sib arch (RegField.reg rb)
  | .reg ra, .ptr pb => pb.modrm_sib arch (RegField.reg ra)
  | .ext na, .ptr pb => pb.modrm_sib arch (RegField.ext na)
  | _, _ => .error "Invalid argument types"

/-- The four strings produced by `generate_instruction_parts`: prefixes,
REX byte, opcode, and the operand strings (ModR/M+SIB+disp, then imm). -/
structure Parts where
  prefixes : List Bytes
  rexByte : Bytes
  opcode : Bytes
  operands : List Bytes
deriving DecidableEq

/-- One hexadecimal digit. -/
def hexDigit (c : Char) : Option Nat :=
  if '0' ≤ c ∧ c ≤ '9' then some (c.toNat - '0'.toNat)
  else if 'a' ≤ c ∧ c ≤ 'f' then some (c.toNat - 'a'.toNat + 10)
  else if 'A' ≤ c ∧ c ≤ 'F' then some (c.toNat - 'A'.toNat + 10)
  else none

/-- Python `bytearray.fromhex` on a compact hex string. -/
def hexParseL : List Char → Option Bytes
  | [] => some []
  | [_] => none
  | c1 :: c2 :: rest => do
    let h ← hexDigit c1
    let l ← hexDigit c2
    let r ← hexParseL rest
    some ((h * 16 + l) :: r)

/-- `Instruction.generate_instruction_parts` from
`pycca/asm/instruction.py`: parse the opcode template (REX.W marker, hex
opcode bytes, embedded-register `+r?` marker, `/N` extension digit), run
`parse_operands`, embed the opcode register, compose ModR/M + SIB, and
assemble the REX byte (emitted only when non-zero). -/
def generate_instruction_parts (arch : Nat) (clean_args : List Arg) (use_sig : Sig)
    (mv : ModeV) (operand_enc : List (String × List (Option String))) :
    Except String Parts := do
  let op_parts0 := (splitOnCharL ' ' mv.opcode.toList).map String.mk
  let rexw := op_parts0.take 2 = ["REX.W", "+"]
  let op_parts := if rexw then op_parts0.drop 2 else op_parts0
  let opcode_s0 ← match op_parts.get? 0 with
    | some s => .ok s
    | none => .error "IndexError: opcode template"
  let opcode_s := if opcode_s0.toList.contains '+'
    then String.mk (opcode_s0.toList.takeWhile (fun c => c ≠ '+'))
    else opcode_s0
  let opcode0 ← match hexParseL opcode_s.toList with
    | some b => .ok b
    | none => .error "ValueError: fromhex"
  let opcode_ext ← (match op_parts.get? 1 with
    | none => .ok (none : Option Nat)
    | some p1 =>
      if p1 = "/r" then .ok none
      else if strStartsWith p1 "/" then
        match p1.toList.get? 1 with
        | some c =>
          if c.isDigit then .ok (some (c.toNat - '0'.toNat))
          else .error "ValueError: invalid int literal"
        | none => .error "IndexError: opcode extension"
      else .ok none : Except String (Option Nat))
  let po ← parse_operands arch clean_args operand_enc use_sig mv
  -- decide the value of the ModR/M reg field
  let mreg ← (match po.reg, opcode_ext with
    | some _, some _ => .error "Cannot encode both register and opcode extension in ModR/M."
    | some a, none => do
      let m ← MArg.ofArg a
      .ok (some m)
    | none, oe => .ok (oe.map MArg.ext) : Except String (Option MArg))
  -- embed a register into the last opcode byte if requested
  let opcode1 ← (match po.opcodeReg with
    | none => .ok opcode0
    | some org =>
      match opcode0.getLast? with
      | some lastB => .ok (opcode0.dropLast ++ [lastB ||| org])
      | none => .error "IndexError: opcode" : Except String Bytes)
  -- ModR/M and SIB bytes
  let (operands0, rex1) ← (match po.rm with
    | some rmArg => do
      let bm ← MArg.ofArg rmArg
      let (mrex, mcode) ← ModRmSib arch mreg bm
      .ok ([mcode], po.rex ||| mrex)
    | none => .ok (([] : List Bytes), po.rex) : Except String (List Bytes × Nat))
  let operands1 := match po.imm with
    | some imm => operands0 ++ [imm]
    | none => operands0
  let rex2 := if rexw then rex1 ||| rexW else rex1
  let rexBytes : Bytes := if rex2 = 0 then [] else [rex2]
  .ok ⟨po.prefixes, rexBytes, opcode1, operands1⟩

/-- `Instruction.generate_code`: concatenate prefixes, REX byte, opcode and
operand strings. -/
def generate_code_bytes (p : Parts) : Bytes :=
  p.prefixes.flatten ++ p.rexByte ++ p.opcode ++ p.operands.flatten

/-- A per-mnemonic instruction class: name, mode table and operand
encodings. -/
structure InstrCls where
  name : String
  modes : ModeTable
  operand_enc : List (String × List (Option String))

/-- The full `Instruction` pipeline up to `generate_instruction_parts`. -/
def instructionParts (arch : Nat) (cls : InstrCls) (args : List Arg) :
    Except String (Sig × Sig × ModeV × Parts) := do
  let (sig, clean) ← read_signature arch args
  let (use_sig, mv) ← select_instruction_mode arch cls.name cls.modes sig
  let parts ← generate_instruction_parts arch clean use_sig mv cls.operand_enc
  .ok (sig, use_sig, mv, parts)

/-- The machine code of a non-branch instruction (`Instruction.code`). -/
def instructionCode (arch : Nat) (cls : InstrCls) (args : List Arg) : Except String Bytes := do
  let (_, _, _, parts) ← instructionParts arch cls args
  .ok (generate_code_bytes parts)

/-- The `mov` table from `pycca/asm/instructions.py`. -/
def movCls : InstrCls :=
  ⟨"mov",
   [ (["r/m8", "r8"],   ⟨"88 /r", some "mr", true, true⟩),
     (["r/m16", "r16"], ⟨"89 /r", some "mr", true, true⟩),
     (["r/m32", "r32"], ⟨"89 /r", some "mr", true, true⟩),
     (["r/m64", "r64"], ⟨"REX.W + 89 /r", some "mr", true, false⟩),
     (["r8", "r/m8"],   ⟨"8a /r", some "rm", true, true⟩),
     (["r16", "r/m16"], ⟨"8b /r", some "rm", true, true⟩),
     (["r32", "r/m32"], ⟨"8b /r", some "rm", true, true⟩),
     (["r64", "r/m64"], ⟨"REX.W + 8b /r", some "rm", true, false⟩),
     (["r8", "imm8"],   ⟨"b0+rb", some "oi", true, true⟩),
     (["r16", "imm16"], ⟨"b8+rw", some "oi", true, true⟩),
     (["r32", "imm32"], ⟨"b8+rd", some "oi", true, true⟩),
     (["r64", "imm64"], ⟨"REX.W + b8+rq", some "oi", true, false⟩),
     (["r/m8", "imm8"],   ⟨"c6 /0", some "mi", true, true⟩),
     (["r/m16", "imm16"], ⟨"c7 /0", some "mi", true, true⟩),
     (["r/m32", "imm32"], ⟨"c7 /0", some "mi", true, true⟩),
     (["r/m64", "imm32"], ⟨"REX.W + c7 /0", some "mi", true, false⟩) ],
   [ ("oi", [some "opcode +rd (w)", some "imm8/16/32/64"]),
     ("mi", [some "ModRM:r/m (w)", some "imm8/16/32"]),
     ("mr", [some "ModRM:r/m (w)", some "ModRM:reg (r)"]),
     ("rm", [some "ModRM:reg (w)", some "ModRM:r/m (r)"]) ]⟩

/-- The `ret` table from `pycca/asm/instructions.py`.  The no-operand mode
carries `None` as its operand-encoding key. -/
def retCls : InstrCls :=
  ⟨"ret",
   [ (["imm16"], ⟨"c2 iw", some "i", true, true⟩),
     ([], ⟨"c3", none, true, true⟩) ],
   [ ("i", [some "imm16"]) ]⟩

/-- The `jmp` table from `pycca/asm/instructions.py`. -/
def jmpCls : InstrCls :=
  ⟨"jmp",
   [ (["rel8"], ⟨"eb", some "i", true, true⟩),
     (["rel16"], ⟨"e9", some "i", false, true⟩),
     (["rel32"], ⟨"e9", some "i", true, true⟩),
     (["r/m16"], ⟨"ff /4", some "m", false, true⟩),
     (["r/m32"], ⟨"ff /4", some "m", false, true⟩),
     (["r/m64"], ⟨"ff /4", some "m", true, false⟩) ],
   [ ("m", [some "ModRM:r/m (r)"]),
     ("i", [some "imm32"]) ]⟩

/-- `_jcc` from `pycca/asm/instructions.py`: the shared table of the
conditional-jump family, parametrized by mnemonic and opcode string. -/
def jccCls (name opcode : String) : InstrCls :=
  ⟨name,
   [ (["rel8"], ⟨opcode, some "i", true, true⟩),
     (["rel16"], ⟨opcode, some "i", false, true⟩),
     (["rel32"], ⟨opcode, some "i", true, true⟩) ],
   [ ("i", [some "imm32"]) ]⟩

/-- `ja = _jcc('ja', '0f87', ...)`. -/
def jaCls : InstrCls := jccCls "ja" "0f87"

/-- A branch target as classified by
`RelBranchInstruction.read_signature`: a Python int (relative offset), a
str (label name), or any other argument (absolute r/m form). -/
inductive BranchArg where
  | int (n : Int)
  | label (s : String)
  | arg (a : Arg)
deriving DecidableEq

/-- A pending fill of a `Code` object (`Code.replace` in
`pycca/asm/instruction.py`): target offset, expression text, and the
struct pack format character. -/
structure Fill where
  index : Nat
  expr : String
  packing : Char
deriving DecidableEq

/-- An instruction `code` value: finished bytes, or a `Code` buffer whose
fills await symbol resolution. -/
inductive CodeV where
  | plain (b : Bytes)
  | deferred (code : Bytes) (repl : List Fill)
deriving DecidableEq

/-- `Code.__len__` is the length of the byte buffer; plain bytes measure
themselves. -/
def CodeV.length : CodeV → Nat
  | .plain b => b.length
  | .deferred c _ => c.length

/-- Byte width of a struct pack format character (`b`, `h`, `i`). -/
def packWidth : Char → Nat
  | 'b' => 1
  | 'h' => 2
  | 'i' => 4
  | _ => 0

/-- The scan of `RelBranchInstruction.generate_code` locating the relative
operand among the operand strings (offset and size of the last operand
whose selected tag starts with `rel`), while concatenating the code. -/
def relScan (use_sig : Sig) : Nat → List Bytes → Bytes → Option (Nat × Nat) →
    Except String (Bytes × Option (Nat × Nat))
  | _, [], code, found => .ok (code, found)
  | i, op :: rest, code, found => do
    let s ← match use_sig.get? i with
      | some s => .ok s
      | none => .error "IndexError: use_sig"
    let found1 := if strStartsWith s "rel" then some (code.length, op.length) else found
    relScan use_sig (i + 1) rest (code ++ op) found1

/-- `RelBranchInstruction` from `pycca/asm/instruction.py`
(`read_signature` + `generate_code`): an int or str target forces the
signature `('rel32',)` with a packed zero placeholder; a str target yields
a `Code` with one fill `"<label> - next_instr_addr"`, an int target is
packed as `target - len(code)` over the placeholder. -/
def relBranchCode (arch : Nat) (cls : InstrCls) (addr : BranchArg) : Except String CodeV := do
  match addr with
  | .arg a => do
    let b ← instructionCode arch cls [a]
    .ok (.plain b)
  | _ => do
    let sig : Sig := ["rel32"]
    let clean : List Arg := [.bytes [0, 0, 0, 0]]
    let (use_sig, mv) ← select_instruction_mode arch cls.name cls.modes sig
    let parts ← generate_instruction_parts arch clean use_sig mv cls.operand_enc
    let code0 := parts.prefixes.flatten ++ parts.rexByte ++ parts.opcode
    let (code, found) ← relScan use_sig 0 parts.operands code0 none
    match found with
    | none => .error "No rel operand in signature; cannot apply label."
    | some (addrOff, opSize) => do
      let packCh ← (match opSize with
        | 1 => .ok 'b'
        | 2 => .ok 'h'
        | 4 => .ok 'i'
        | _ => .error "KeyError: operand size" : Except String Char)
      match addr with
      | .label s => .ok (.deferred code [⟨addrOff, s ++ " - next_instr_addr", packCh⟩])
      | .int n => do
        let offB ← (match packSigned (packWidth packCh) (n - code.length) with
          | some b => .ok b
          | none => .error "struct.error: argument out of range" : Except String Bytes)
        .ok (.plain (code.take addrOff ++ offB ++ code.drop (addrOff + opSize)))
      | .arg _ => .error "unreachable"

/-- Symbol-table lookup; an unknown name is a Python `NameError`. -/
def lookupSym (syms : List (String × Int)) (k : String) : Except String Int :=
  match syms with
  | [] => .error ("NameError: name " ++ k ++ " is not defined")
  | (n, v) :: rest => if n = k then .ok v else lookupSym rest k

/-- Modelled from the repository use of Python `eval` inside
`Code.compile`: the assembler only ever constructs a bare symbol or the
difference `"<label> - next_instr_addr"`, so the evaluator handles a name
and a single subtraction. -/
def evalExpr (syms : List (String × Int)) (s : String) : Except String Int :=
  match (splitOnL " - ".toList s.toList).map String.mk with
  | [a] => lookupSym syms a
  | [a, b] => do
    let va ← lookupSym syms a
    let vb ← lookupSym syms b
    .ok (va - vb)
  | _ => .error "eval: unsupported expression"

/-- The fill loop of `Code.compile` (`pycca/asm/instruction.py`): evaluate
each expression, pack it signed at the recorded width, and overwrite the
recorded range `code[:i] + val + code[i+len(val):]`. -/
def codeFill (syms : List (String × Int)) : List Fill → Bytes → Except String Bytes
  | [], code => .ok code
  | f :: rest, code => do
    let v ← evalExpr syms f.expr
    let packed ← (match packSigned (packWidth f.packing) v with
      | some b => .ok b
      | none => .error "struct.error: argument out of range" : Except String Bytes)
    codeFill syms rest (code.take f.index ++ packed ++ code.drop (f.index + packed.length))

/-- `Code.compile`: plain bytes pass through, deferred buffers run their
fills. -/
def codeCompile (syms : List (String × Int)) : CodeV → Except String Bytes
  | .plain b => .ok b
  | .deferred code repl => codeFill syms repl code

/-- One entry of a `CodePage` program: a label marker or an instruction
(held by its generated code value). -/
inductive AsmItem where
  | label (name : String)
  | instr (c : CodeV)
deriving DecidableEq

/-- `len(cmd)` in the label pass: labels are empty, instructions measure
their code. -/
def itemLen : AsmItem → Nat
  | .label _ => 0
  | .instr c => c.length

/-- Python dict assignment `d[k] = v`. -/
def setSym (syms : List (String × Int)) (k : String) (v : Int) : List (String × Int) :=
  match syms with
  | [] => [(k, v)]
  | (n, w) :: rest => if n = k then (k, v) :: rest else (n, w) :: setSym rest k v

/-- The label pass of `CodePage.compile` (`pycca/asm/codepage.py`): walk
the program advancing a byte cursor from the page address; a label maps
its name to the current cursor (a repeated name simply overwrites). -/
def labelPass (ptr : Int) : List AsmItem → List (String × Int) → List (String × Int)
  | [], labels => labels
  | cmd :: rest, labels =>
    let ptr1 := ptr + itemLen cmd
    match cmd with
    | .label n => labelPass ptr1 rest (setSym labels n ptr1)
    | .instr _ => labelPass ptr1 rest labels

/-- The emit pass of `CodePage.compile`: concatenate instruction bytes,
resolving deferred buffers against the label map extended with
`instr_addr` / `next_instr_addr` for the current entry. -/
def emitPass (pageAddr : Int) (labels : List (String × Int)) :
    List AsmItem → Bytes → Except String Bytes
  | [], code => .ok code
  | .label _ :: rest, code => emitPass pageAddr labels rest code
  | .instr c :: rest, code => do
    let bytes ← (match c with
      | .plain b => .ok b
      | .deferred _ _ =>
        let ia := pageAddr + code.length
        let syms := setSym (setSym labels "instr_addr" ia) "next_instr_addr" (ia + c.length)
        codeCompile syms c : Except String Bytes)
    emitPass pageAddr labels rest (code ++ bytes)

/-- `CodePage.compile` from `pycca/asm/codepage.py`: the two passes. -/
def codePageCompile (pageAddr : Int) (asm : List AsmItem) : Except String Bytes :=
  emitPass pageAddr (labelPass pageAddr asm []) asm []

/-- Python `s.partition(c)` for a single-character separator: the part
before the first occurrence, whether it was found, and the part after. -/
def partitionChar (s : String) (c : Char) : String × Bool × String :=
  let l := s.toList
  match l.findIdx? (fun x => x = c) with
  | some i => (String.mk (l.take i), true, String.mk (l.drop (i + 1)))
  | none => (s, false, "")

/-- First character of a Python identifier. -/
def isIdentStart (c : Char) : Bool := c.isAlpha || c = '_'

/-- Later characters of a Python identifier. -/
def isIdentChar (c : Char) : Bool := c.isAlphanum || c = '_'

/-- The label pattern of `parse_asm`
(`re.match` of whitespace then an identifier): the matched identifier, if
any. -/
def matchLabelName (s : String) : Option String :=
  let l := s.toList.dropWhile (fun c => c.isWhitespace)
  match l with
  | [] => none
  | c :: _ =>
    if isIdentStart c then some (String.mk (l.takeWhile isIdentChar)) else none

/-- An item produced by the first pass of `parse_asm`: a label marker or a
remaining instruction line `(lineno, text, original)`. -/
inductive CleanItem where
  | label (name : String)
  | line (lineno : Nat) (text : String) (orig : String)
deriving DecidableEq

/-- The first pass of `parse_asm` from `pyca/asm/parser.py`: strip blank
lines and comments, split a leading `name:` label off each line, reject a
label already present in the evaluation namespace with a `NameError`, and
record the remaining instruction text. -/
def parse_asm_pass1 (lines : List (Nat × String)) (ns : List String) (acc : List CleanItem) :
    Except String (List CleanItem × List String) :=
  match lines with
  | [] => .ok (acc.reverse, ns)
  | (lineno, line0) :: rest =>
    let line1 := trimS line0
    let origline := line1
    if line1 = "" then parse_asm_pass1 rest ns acc
    else
      let (line2, _, _) := partitionChar line1 '#'
      let (a, colonFound, b) := partitionChar line2 ':'
      match (if ¬ colonFound then .ok (line2, acc, ns)
        else match matchLabelName a with
          | none =>
            .error ("SyntaxError: expected label name before colon on assembly line " ++
              toString lineno ++ ": " ++ origline)
          | some lbl =>
            let acc1 := CleanItem.label lbl :: acc
            if ns.contains lbl then
              .error ("NameError: duplicate symbol " ++ lbl ++ " on assembly line " ++
                toString lineno ++ ": " ++ origline)
            else .ok (b, acc1, lbl :: ns) :
          Except String (String × List CleanItem × List String)) with
      | .error e => .error e
      | .ok (lineF, accF, nsF) =>
        let lineT := trimS lineF
        if lineT = "" then parse_asm_pass1 rest nsF accF
        else parse_asm_pass1 rest nsF (CleanItem.line lineno lineT origline :: accF)

/-- The first pass of `parse_asm` applied to a source string: split on
newlines with 1-based line numbers, starting from the given evaluation
namespace (register names plus caller symbols). -/
def parse_asm_pass1_src (src : String) (ns0 : List String) :
    Except String (List CleanItem × List String) :=
  parse_asm_pass1 (((splitOnCharL '\n' src.toList).map String.mk).enum.map (fun p => (p.1 + 1, p.2))) ns0 []

/-!  An explicit object heap for the mutation behaviour of
`Pointer.__add__` (`pycc/asm/pointer.py`).  Heap cells are `Pointer`
records addressed by index; `__add__` first allocates a copy of `self`
(`y = self.copy()`) and mutates only that copy, re-entering `__add__` for
the pieces of a `Pointer` argument. -/

/-- The Python object heap: one cell per live `Pointer`. -/
abbrev Heap := List Pointer

/-- A value combined with a heap-resident pointer: register, integer, or
the id of another heap pointer. -/
inductive HVal where
  | reg (r : Register)
  | int (n : Int)
  | ptr (i : Nat)
deriving DecidableEq

/-- `Pointer.__add__` with a `Register` argument, on the heap: allocate
the copy, then fill its `reg1` or `reg2` slot in place, or raise. -/
def heapAddReg (h : Heap) (self : Nat) (r : Register) : Heap × Except String Nat :=
  match h[self]? with
  | none => (h, .error "invalid object id")
  | some pf =>
    let y := h.length
    let yv := pf.copy
    let h1 := h ++ [yv]
    if yv.reg1 = none then (h1.set y ⟨some r, yv.scale, yv.reg2, yv.disp, yv.bits⟩, .ok y)
    else if yv.reg2 = none then (h1.set y ⟨yv.reg1, yv.scale, some r, yv.disp, yv.bits⟩, .ok y)
    else (h1, .error "Pointer cannot incorporate more than two registers.")

/-- `Pointer.__add__` with an integer argument, on the heap: allocate the
copy, then set or increase its displacement in place. -/
def heapAddInt (h : Heap) (self : Nat) (n : Int) : Heap × Except String Nat :=
  match h[self]? with
  | none => (h, .error "invalid object id")
  | some pf =>
    let y := h.length
    let yv := pf.copy
    let h1 := h ++ [yv]
    match yv.disp with
    | none => (h1.set y ⟨yv.reg1, yv.scale, yv.reg2, some n, yv.bits⟩, .ok y)
    | some d => (h1.set y ⟨yv.reg1, yv.scale, yv.reg2, some (d + n), yv.bits⟩, .ok y)

/-- The statement `y = y + x.disp` of the `Pointer` branch of `__add__`:
re-enter `__add__` with the integer displacement of `x` when present. -/
def heapStepDisp (h1 : Heap) (y xi : Nat) : Heap × Except String Nat :=
  match h1[xi]? with
  | some xv =>
    match xv.disp with
    | some d => heapAddInt h1 y d
    | none => (h1, .ok y)
  | none => (h1, .error "invalid object id")

/-- The statement `y = y + x.reg2`: re-enter `__add__` with the second
register of `x` when present. -/
def heapStepReg2 (h2 : Heap) (y1 xi : Nat) : Heap × Except String Nat :=
  match h2[xi]? with
  | some xv =>
    match xv.reg2 with
    | some r => heapAddReg h2 y1 r
    | none => (h2, .ok y1)
  | none => (h2, .error "invalid object id")

/-- The `x.reg1` / `x.scale` step of the `Pointer` branch: an unscaled
`reg1` re-enters `__add__`; a scaled `reg1` mutates the current copy in
place (moving its own `reg1` to `reg2` if needed), with the two error
cases of the source. -/
def heapStepReg1Scale (h3 : Heap) (y2 xi : Nat) : Heap × Except String Nat :=
  match h3[xi]?, h3[y2]? with
  | some xv, some yv =>
    match xv.reg1, xv.scale with
    | some r, none => heapAddReg h3 y2 r
    | some r, some s =>
      if yv.scale ≠ none then (h3, .error "Pointer can only hold one scaled register.")
      else if yv.reg1 ≠ none then
        if yv.reg2 ≠ none then
          (h3, .error "Pointer cannot incorporate more than two registers.")
        else (h3.set y2 ⟨some r, some s, yv.reg1, yv.disp, yv.bits⟩, .ok y2)
      else (h3.set y2 ⟨some r, some s, yv.reg2, yv.disp, yv.bits⟩, .ok y2)
    | none, _ => (h3, .ok y2)
  | _, _ => (h3, .error "invalid object id")

/-- `Pointer.__add__` on the heap.  The `Pointer` case allocates the copy
(`y = self.copy()`) and runs the three steps above in the order of the
source, propagating a raised exception while keeping the heap mutated so
far. -/
def heapAdd (h : Heap) (self : Nat) (x : HVal) : Heap × Except String Nat :=
  match x with
  | .reg r => heapAddReg h self r
  | .int n => heapAddInt h self n
  | .ptr xi =>
    match h[self]?, h[xi]? with
    | some pf, some _ =>
      let y := h.length
      let h1 := h ++ [pf.copy]
      match heapStepDisp h1 y xi with
      | (h2, .error e) => (h2, .error e)
      | (h2, .ok y1) =>
        match heapStepReg2 h2 y1 xi with
        | (h3, .error e) => (h3, .error e)
        | (h3, .ok y2) => heapStepReg1Scale h3 y2 xi
    | _, _ => (h, .error "invalid object id")

/-- The builder expression `r1 + r2 + d` (Python evaluates left to right:
`Register.__add__` builds the two-register pointer, then
`Pointer.__add__` adds the displacement). -/
def buildRRD (r1 r2 : Register) (d : Int) : Except String Pointer := do
  let p ← r1.add (.reg r2)
  p.add (.int d)

/-- The builder expression `d + r1 + r2` (`d + r1` falls back to
`Register.__radd__`, i.e. `r1 + d`; then the pointer absorbs `r2`). -/
def buildDRR (r1 r2 : Register) (d : Int) : Except String Pointer := do
  let p ← r1.add (.int d)
  p.add (.reg r2)

/-- The builder expression `r2 + d + r1` (`r2 + d` builds the pointer,
which then absorbs `r1`). -/
def buildRDR (r1 r2 : Register) (d : Int) : Except String Pointer := do
  let p ← r2.add (.int d)
  p.add (.reg r1)

/-- The encoded bytes of `mov dst, [p]` through the instruction engine. -/
def movLoadBytes (arch : Nat) (dst : Register) (p : Pointer) : Except String Bytes :=
  instructionCode arch movCls [.reg dst, .ptr p]

/-- C1 counterexample: at `r1 = rax`, `r2 = rbx`, `d = 5`, the builder
expressions `r1 + r2 + d` and `r2 + d + r1` produce different `Pointer`
values (the two register slots are exchanged) and different encoded bytes
for `mov rcx, [...]` (the SIB index and base fields swap), refuting the
claim that all three expressions agree. -/
theorem C1_counterexample :
    buildRRD rax rbx 5 = .ok ⟨some rax, none, some rbx, some 5, none⟩ ∧
    buildRDR rax rbx 5 = .ok ⟨some rbx, none, some rax, some 5, none⟩ ∧
    (⟨some rax, none, some rbx, some 5, none⟩ : Pointer) ≠ ⟨some rbx, none, some rax, some 5, none⟩ ∧
    movLoadBytes 64 rcx ⟨some rax, none, some rbx, some 5, none⟩ = .ok [0x48, 0x8b, 0x4c, 0x18, 0x05] ∧
    movLoadBytes 64 rcx ⟨some rbx, none, some rax, some 5, none⟩ = .ok [0x48, 0x8b, 0x4c, 0x03, 0x05] ∧
    movLoadBytes 64 rcx ⟨some rax, none, some rbx, some 5, none⟩ ≠
      movLoadBytes 64 rcx ⟨some rbx, none, some rax, some 5, none⟩ := by
  refine ⟨rfl, rfl, by decide, by decide, by decide, by decide⟩

/-- C1 (amended): for all registers r1, r2 and every integer d, the
builder expressions `r1 + r2 + d` and `d + r1 + r2` evaluate to the same
Pointer (reg1 = r1, reg2 = r2, disp = d) and hence produce identical
encoded bytes as the memory operand of a `mov`; `r2 + d + r1` instead
evaluates to the Pointer with the two register slots exchanged
(reg1 = r2, reg2 = r1), a different Pointer value whenever r1 ≠ r2.  The
slot swap can also change the encoded bytes, though it need not: the
concrete divergence is the counterexample's, at `rax`/`rbx`. -/
theorem C1_builder_algebra (r1 r2 : Register) (d : Int) :
    buildRRD r1 r2 d = .ok ⟨some r1, none, some r2, some d, none⟩ ∧
    buildDRR r1 r2 d = .ok ⟨some r1, none, some r2, some d, none⟩ ∧
    buildRDR r1 r2 d = .ok ⟨some r2, none, some r1, some d, none⟩ ∧
    (r1 ≠ r2 →
      (⟨some r1, none, some r2, some d, none⟩ : Pointer)
        ≠ ⟨some r2, none, some r1, some d, none⟩) ∧
    (∀ (arch : Nat) (dst : Register) (pA pB : Pointer),
      buildRRD r1 r2 d = .ok pA → buildDRR r1 r2 d = .ok pB →
        movLoadBytes arch dst pA = movLoadBytes arch dst pB) := by
  refine ⟨rfl, rfl, rfl, ?_, fun arch dst pA pB hA hB => ?_⟩
  · intro hne heq
    exact hne (Option.some.inj (Pointer.mk.injEq _ _ _ _ _ _ _ _ _ _ ▸ heq).1)
  have h1 : pA = ⟨some r1, none, some r2, some d, none⟩ := by
    have : Except.ok (ε := String) pA = .ok (⟨some r1, none, some r2, some d, none⟩ : Pointer) := by
      rw [← hA]; rfl
    exact (Except.ok.injEq _ _).mp this
  have h2 : pB = ⟨some r1, none, some r2, some d, none⟩ := by
    have : Except.ok (ε := String) pB = .ok (⟨some r1, none, some r2, some d, none⟩ : Pointer) := by
      rw [← hB]; rfl
    exact (Except.ok.injEq _ _).mp this
  rw [h1, h2]

/-- C1 amended-claim witness: at `rax`, `rbx`, `d = 5` the slot-swapped
Pointer differs, and the two agreeing builder expressions encode alike
with destination `rcx` on a 64-bit process. -/
theorem C1_builder_algebra_witness :
    (⟨some rax, none, some rbx, some 5, none⟩ : Pointer)
      ≠ ⟨some rbx, none, some rax, some 5, none⟩
    ∧ movLoadBytes 64 rcx ⟨some rax, none, some rbx, some 5, none⟩ =
        movLoadBytes 64 rcx ⟨some rax, none, some rbx, some 5, none⟩ :=
  ⟨(C1_builder_algebra rax rbx 5).2.2.2.1 (by decide),
   (C1_builder_algebra rax rbx 5).2.2.2.2 64 rcx _ _ rfl rfl⟩

lemma toLE_length (w : Nat) (x : Int) : (toLE w x).length = w := by
  simp [toLE]

/-- C6: for a Pointer holding exactly one register (in either slot) of a
family other than *sp (3-bit code 4) and *bp (code 5), with no scale:
a missing or zero displacement contributes no displacement bytes and the
ModR/M byte is built with mod=00 (`Mod.ind`); a nonzero displacement in
-128..127 contributes exactly one byte with mod=01 (`Mod.ind8`); any
other displacement in the encodable range contributes exactly four bytes
with mod=10 (`Mod.ind32`). -/
theorem C6_disp_packing (arch : Nat) (r : Register) (bq : Option Nat) (reg : RegField)
    (hbits : ¬ r.bits < arch / 2) (h16 : r.bits ≠ 16) (h4 : r.val3 ≠ 4) (h5 : r.val3 ≠ 5) :
    (∀ (dq : Option Int) (slot : Bool), dq = none ∨ dq = some 0 →
      Pointer.modrm_sib arch
          (if slot then ⟨some r, none, none, dq, bq⟩ else ⟨none, none, some r, dq, bq⟩) reg
        = .ok ((mod_reg_rm Mod.ind reg (RmField.reg r)).1,
               (mod_reg_rm Mod.ind reg (RmField.reg r)).2 ++ [])) ∧
    (∀ (d : Int) (slot : Bool), d ≠ 0 → -128 ≤ d ∧ d < 128 →
      Pointer.modrm_sib arch
          (if slot then ⟨some r, none, none, some d, bq⟩ else ⟨none, none, some r, some d, bq⟩) reg
        = .ok ((mod_reg_rm Mod.ind8 reg (RmField.reg r)).1,
               (mod_reg_rm Mod.ind8 reg (RmField.reg r)).2 ++ toLE 1 d) ∧
      (toLE 1 d).length = 1) ∧
    (∀ (d : Int) (slot : Bool), ¬ (-128 ≤ d ∧ d < 128) → -(2^31) ≤ d ∧ d < 2^32 →
      Pointer.modrm_sib arch
          (if slot then ⟨some r, none, none, some d, bq⟩ else ⟨none, none, some r, some d, bq⟩) reg
        = .ok ((mod_reg_rm Mod.ind32 reg (RmField.reg r)).1,
               (mod_reg_rm Mod.ind32 reg (RmField.reg r)).2 ++ toLE 4 d) ∧
      (toLE 4 d).length = 4) := by
  have hb2 : arch / 2 ≤ r.bits := Nat.not_lt.mp hbits
  refine ⟨?_, ?_, ?_⟩
  · rintro dq slot (rfl | rfl) <;> cases slot <;>
      · simp only [Pointer.modrm_sib, Pointer.sizeChecks, ensure, hbits, h16, decide_not, bind, Except.bind]
        simp [Option.any, hb2, h16, h4, h5, Option.toList, bind, Except.bind]
  · intro d slot hd h8
    refine ⟨?_, toLE_length 1 d⟩
    cases slot <;>
      · simp only [Pointer.modrm_sib, Pointer.sizeChecks, ensure, hbits, h16, decide_not, bind, Except.bind]
        simp [Option.any, hb2, h16, h4, h5, hd, pack_int, packWidths, tryPack, packSigned,
          h8.1, h8.2, toLE, Option.toList, bind, Except.bind]
  · intro d slot hd hr
    refine ⟨?_, toLE_length 4 d⟩
    have hd0 : d ≠ 0 := by rintro rfl; exact hd (by norm_num)
    have hr1 : -(2147483648 : Int) ≤ d := by omega
    have hr2 : d < (4294967296 : Int) := by omega
    cases slot <;>
      simp only [Pointer.modrm_sib, Pointer.sizeChecks, ensure, hbits, h16, decide_not, bind, Except.bind] <;>
      rcases (em (d < 2147483648)) with hs | hs
    · simp [Option.any, hb2, h16, h4, h5, hd0, pack_int, packWidths, tryPack, packSigned, hd,
        hr1, hs, toLE, Option.toList, bind, Except.bind]
    · have h256 : ¬ (d < 256) := by omega
      have hns : ¬ (-(2147483648 : Int) ≤ d ∧ d < 2147483648) := by omega
      have h0 : (0 : Int) ≤ d := by omega
      simp [Option.any, hb2, h16, h4, h5, hd0, pack_int, packWidths, tryPack, packSigned,
        packUnsigned, pack_uint, hd, hns, h256, h0, hr2, toLE, Option.toList, bind, Except.bind]
    · simp [Option.any, hb2, h16, h4, h5, hd0, pack_int, packWidths, tryPack, packSigned, hd,
        hr1, hs, toLE, Option.toList, bind, Except.bind]
    · have h256 : ¬ (d < 256) := by omega
      have hns : ¬ (-(2147483648 : Int) ≤ d ∧ d < 2147483648) := by omega
      have h0 : (0 : Int) ≤ d := by omega
      simp [Option.any, hb2, h16, h4, h5, hd0, pack_int, packWidths, tryPack, packSigned,
        packUnsigned, pack_uint, hd, hns, h256, h0, hr2, toLE, Option.toList, bind, Except.bind]

/-- C6 witness: `[rax+5]` under the `rcx` reg field on a 64-bit process. -/
theorem C6_disp_packing_witness :
    Pointer.modrm_sib 64 ⟨some rax, none, none, some 5, none⟩ (RegField.reg rcx)
      = .ok ((mod_reg_rm Mod.ind8 (RegField.reg rcx) (RmField.reg rax)).1,
             (mod_reg_rm Mod.ind8 (RegField.reg rcx) (RmField.reg rax)).2 ++ toLE 1 5) :=
  (((C6_disp_packing 64 rax none (RegField.reg rcx) (by decide) (by decide) (by decide)
    (by decide)).2.1) 5 true (by decide) (by constructor <;> decide)).1

/-- C7: a Pointer holding only a displacement encodes on a 64-bit process
as ModR/M with mod=00 and r/m=0b100 (the `sib` marker), a SIB byte
0b00100101 (scale 0, index 0b100 = no index, base 0b101 = no base), and a
4-byte displacement; on a 32-bit process as ModR/M with mod=00 and
r/m=0b101 (the `disp` marker) followed directly by the 4-byte
displacement. -/
theorem C7_disp_only (d : Int) (bq : Option Nat) (reg : RegField)
    (hr : -(2^31) ≤ d ∧ d < 2^31) :
    (Pointer.modrm_sib 64 ⟨none, none, none, some d, bq⟩ reg
      = .ok ((mod_reg_rm Mod.ind reg RmField.sib).1,
             (mod_reg_rm Mod.ind reg RmField.sib).2 ++ [0b00100101] ++ toLE 4 d)) ∧
    (Pointer.modrm_sib 32 ⟨none, none, none, some d, bq⟩ reg
      = .ok ((mod_reg_rm Mod.ind reg RmField.disp).1,
             (mod_reg_rm Mod.ind reg RmField.disp).2 ++ toLE 4 d)) ∧
    (toLE 4 d).length = 4 := by
  have hr1 : -(2147483648 : Int) ≤ d := by omega
  have hr2 : d < (2147483648 : Int) := by omega
  refine ⟨?_, ?_, toLE_length 4 d⟩ <;>
    · simp only [Pointer.modrm_sib, Pointer.sizeChecks, ensure, bind, Except.bind]
      rcases (em (d = 0)) with rfl | hd0
      · simp [Option.any, Option.toList, packSigned, mk_sib, rsp, rbp, toLE, bind, Except.bind]
        try decide
      · rcases (em (-128 ≤ d ∧ d < 128)) with h8 | h8 <;>
          · simp [Option.any, Option.toList, hd0, pack_int, packWidths, tryPack, packSigned,
              h8, hr1, hr2, mk_sib, rsp, rbp, toLE, bind, Except.bind]
            try decide

/-- C7 witness at `d = 0x1000` with the `rcx` reg field. -/
theorem C7_disp_only_witness :
    Pointer.modrm_sib 64 ⟨none, none, none, some 0x1000, none⟩ (RegField.reg rcx)
      = .ok ((mod_reg_rm Mod.ind (RegField.reg rcx) RmField.sib).1,
             (mod_reg_rm Mod.ind (RegField.reg rcx) RmField.sib).2 ++ [0b00100101] ++ toLE 4 0x1000) :=
  (C7_disp_only 0x1000 none (RegField.reg rcx) (by constructor <;> decide)).1

lemma set_append_getElem? (h : Heap) (v w : Pointer) (i : Nat) (hi : i < h.length) :
    ((h ++ [v]).set h.length w)[i]? = h[i]? := by
  rw [List.getElem?_set_ne (by omega)]
  exact List.getElem?_append_left hi

lemma heapAddReg_spec (h : Heap) (s : Nat) (r : Register) :
    h.length ≤ (heapAddReg h s r).1.length ∧
    (∀ i, i < h.length → (heapAddReg h s r).1[i]? = h[i]?) ∧
    (∀ y, (heapAddReg h s r).2 = .ok y → y = h.length) := by
  unfold heapAddReg
  cases hs : h[s]? with
  | none => simp
  | some pf =>
    by_cases h1 : pf.copy.reg1 = none
    · simp only [h1, if_true]
      refine ⟨by simp [List.length_set], fun i hi => set_append_getElem? _ _ _ i hi, ?_⟩
      intro y hy
      simpa using hy.symm
    · by_cases h2 : pf.copy.reg2 = none
      · simp only [h1, if_false, h2, if_true]
        refine ⟨by simp [List.length_set], fun i hi => set_append_getElem? _ _ _ i hi, ?_⟩
        intro y hy
        simpa using hy.symm
      · simp only [h1, h2, if_false]
        refine ⟨by simp, fun i hi => List.getElem?_append_left hi, ?_⟩
        intro y hy
        simp at hy

lemma heapAddInt_spec (h : Heap) (s : Nat) (n : Int) :
    h.length ≤ (heapAddInt h s n).1.length ∧
    (∀ i, i < h.length → (heapAddInt h s n).1[i]? = h[i]?) ∧
    (∀ y, (heapAddInt h s n).2 = .ok y → y = h.length) := by
  unfold heapAddInt
  cases hs : h[s]? with
  | none => simp
  | some pf =>
    cases hd : pf.copy.disp with
    | none =>
      simp only [hd]
      refine ⟨by simp [List.length_set], fun i hi => set_append_getElem? _ _ _ i hi, ?_⟩
      intro y hy
      simpa using hy.symm
    | some d =>
      simp only [hd]
      refine ⟨by simp [List.length_set], fun i hi => set_append_getElem? _ _ _ i hi, ?_⟩
      intro y hy
      simpa using hy.symm

lemma heapStepDisp_spec (h1 : Heap) (y xi : Nat) :
    h1.length ≤ (heapStepDisp h1 y xi).1.length ∧
    (∀ i, i < h1.length → (heapStepDisp h1 y xi).1[i]? = h1[i]?) ∧
    (∀ z, (heapStepDisp h1 y xi).2 = .ok z → z = y ∨ z = h1.length) := by
  unfold heapStepDisp
  cases hx : h1[xi]? with
  | none => simp
  | some xv =>
    cases hd : xv.disp with
    | none => simp [hd]
    | some d =>
      simp only [hd]
      obtain ⟨hlen, hfr, hok⟩ := heapAddInt_spec h1 y d
      exact ⟨hlen, hfr, fun z hz => Or.inr (hok z hz)⟩

lemma heapStepReg2_spec (h2 : Heap) (y1 xi : Nat) :
    h2.length ≤ (heapStepReg2 h2 y1 xi).1.length ∧
    (∀ i, i < h2.length → (heapStepReg2 h2 y1 xi).1[i]? = h2[i]?) ∧
    (∀ z, (heapStepReg2 h2 y1 xi).2 = .ok z → z = y1 ∨ z = h2.length) := by
  unfold heapStepReg2
  cases hx : h2[xi]? with
  | none => simp
  | some xv =>
    cases hr : xv.reg2 with
    | none => simp [hr]
    | some r =>
      simp only [hr]
      obtain ⟨hlen, hfr, hok⟩ := heapAddReg_spec h2 y1 r
      exact ⟨hlen, hfr, fun z hz => Or.inr (hok z hz)⟩

lemma heapStepReg1Scale_spec (h3 : Heap) (y2 xi n : Nat) (hn3 : n ≤ h3.length) (hny : n ≤ y2) :
    (∀ i, i < n → (heapStepReg1Scale h3 y2 xi).1[i]? = h3[i]?) := by
  unfold heapStepReg1Scale
  intro i hi
  cases hx : h3[xi]? with
  | none => simp
  | some xv =>
    cases hy : h3[y2]? with
    | none => simp
    | some yv =>
      cases hr1 : xv.reg1 with
      | none => simp [hr1]
      | some r =>
        cases hsc : xv.scale with
        | none =>
          simp only [hr1, hsc]
          have hlt : i < h3.length := by omega
          exact (heapAddReg_spec h3 y2 r).2.1 i hlt
        | some s =>
          simp only [hr1, hsc]
          have hne : y2 ≠ i := by omega
          by_cases c1 : yv.scale ≠ none
          · rw [if_pos c1]
          · rw [if_neg c1]
            by_cases c2 : yv.reg1 ≠ none
            · rw [if_pos c2]
              by_cases c3 : yv.reg2 ≠ none
              · rw [if_pos c3]
              · rw [if_neg c3]
                exact List.getElem?_set_ne hne
            · rw [if_neg c2]
              exact List.getElem?_set_ne hne

lemma heapStepReg1Scale_ok (h3 : Heap) (y2 xi : Nat) :
    ∀ z, (heapStepReg1Scale h3 y2 xi).2 = .ok z → z = y2 ∨ z = h3.length := by
  unfold heapStepReg1Scale
  intro z hz
  cases hx : h3[xi]? with
  | none => rw [hx] at hz; simp at hz
  | some xv =>
    cases hy : h3[y2]? with
    | none => rw [hx, hy] at hz; simp at hz
    | some yv =>
      rw [hx, hy] at hz
      cases hr1 : xv.reg1 with
      | none =>
        simp only [hr1] at hz
        exact Or.inl (Except.ok.inj hz).symm
      | some r =>
        cases hsc : xv.scale with
        | none =>
          simp only [hr1, hsc] at hz
          exact Or.inr ((heapAddReg_spec h3 y2 r).2.2 z hz)
        | some s =>
          simp only [hr1, hsc] at hz
          by_cases c1 : yv.scale ≠ none
          · rw [if_pos c1] at hz
            simp at hz
          · rw [if_neg c1] at hz
            by_cases c2 : yv.reg1 ≠ none
            · rw [if_pos c2] at hz
              by_cases c3 : yv.reg2 ≠ none
              · rw [if_pos c3] at hz
                simp at hz
              · rw [if_neg c3] at hz
                dsimp only at hz
                exact Or.inl (Except.ok.inj hz).symm
            · rw [if_neg c2] at hz
              dsimp only at hz
              exact Or.inl (Except.ok.inj hz).symm

/-- C10: `Pointer.__add__` is non-mutating, modelled on an explicit
object heap.  For every heap, every receiver id and every argument
(register, integer, or another heap pointer), the call leaves every
pre-existing heap cell — in particular the receiver and the argument —
unchanged, whether it returns or raises; and a returned result id is a
freshly allocated object, not an alias of any pre-existing one. -/
theorem C10_add_non_mutating (h : Heap) (self : Nat) (x : HVal) :
    (∀ i, i < h.length → (heapAdd h self x).1[i]? = h[i]?) ∧
    (∀ y, (heapAdd h self x).2 = .ok y → h.length ≤ y) := by
  cases x with
  | reg r =>
    obtain ⟨_, hfr, hok⟩ := heapAddReg_spec h self r
    exact ⟨hfr, fun y hy => (hok y hy).ge⟩
  | int n =>
    obtain ⟨_, hfr, hok⟩ := heapAddInt_spec h self n
    exact ⟨hfr, fun y hy => (hok y hy).ge⟩
  | ptr xi =>
    simp only [heapAdd]
    cases hs : h[self]? with
    | none => simp
    | some pf =>
      cases hxi : h[xi]? with
      | none => simp
      | some xv0 =>
        simp only []
        have hfrA : ∀ i, i < h.length → (h ++ [pf.copy])[i]? = h[i]? :=
          fun i hi => List.getElem?_append_left hi
        have hlenA : h.length ≤ (h ++ [pf.copy]).length := by simp
        obtain ⟨hl1, hf1, ho1⟩ := heapStepDisp_spec (h ++ [pf.copy]) h.length xi
        rcases hst1 : heapStepDisp (h ++ [pf.copy]) h.length xi with ⟨h2, r2⟩
        rw [hst1] at hl1 hf1 ho1
        dsimp only at hl1 hf1 ho1
        cases r2 with
        | error e =>
          refine ⟨fun i hi => ?_, by simp⟩
          simp only []
          rw [hf1 i (by omega), hfrA i hi]
        | ok y1 =>
          simp only []
          have hy1 : h.length ≤ y1 := by
            rcases ho1 y1 rfl with rfl | rfl
            · exact le_refl _
            · omega
          obtain ⟨hl2, hf2, ho2⟩ := heapStepReg2_spec h2 y1 xi
          rcases hst2 : heapStepReg2 h2 y1 xi with ⟨h3, r3⟩
          rw [hst2] at hl2 hf2 ho2
          dsimp only at hl2 hf2 ho2
          cases r3 with
          | error e =>
            refine ⟨fun i hi => ?_, by simp⟩
            simp only []
            rw [hf2 i (by omega), hf1 i (by omega), hfrA i hi]
          | ok y2 =>
            simp only []
            have hy2 : h.length ≤ y2 := by
              rcases ho2 y2 rfl with rfl | rfl
              · exact hy1
              · omega
            have hn3 : h.length ≤ h3.length := by omega
            have hfr3 := heapStepReg1Scale_spec h3 y2 xi h.length hn3 hy2
            constructor
            · intro i hi
              rw [hfr3 i hi, hf2 i (by omega), hf1 i (by omega), hfrA i hi]
            · intro y hy
              rcases heapStepReg1Scale_ok h3 y2 xi y hy with rfl | rfl
              · exact hy2
              · omega


/-- Witness for C10 at a concrete heap: adding the integer 5 to the
pointer stored in cell 0 leaves cell 0 unchanged, and the result id 1 is
the freshly allocated cell. -/
theorem C10_add_non_mutating_witness :
    (heapAdd [(⟨some rax, none, none, none, none⟩ : Pointer)] 0 (.int 5)).1[0]?
      = ([(⟨some rax, none, none, none, none⟩ : Pointer)] : Heap)[0]?
    ∧ (1 : Nat) ≤ 1 :=
  ⟨(C10_add_non_mutating [(⟨some rax, none, none, none, none⟩ : Pointer)] 0 (.int 5)).1
      0 (by decide),
   (C10_add_non_mutating [(⟨some rax, none, none, none, none⟩ : Pointer)] 0 (.int 5)).2
      1 (by decide)⟩

end Asm

namespace Asm

/-- Reduction of `generate_instruction_parts` for the shared rel32 branch
mode: a plain hex opcode with an imm32-encoded placeholder produces no
prefixes, no REX byte, the parsed opcode bytes, and a single 4-byte zero
operand. -/
lemma gen_parts_rel32 (arch : Nat) (op : String) (opB : Bytes)
    (enc : List (String × List (Option String)))
    (hsplit : splitOnCharL ' ' op.toList = [op.toList])
    (hplus : op.toList.contains '+' = false)
    (hhex : hexParseL op.toList = some opB)
    (hparse : parse_operands arch [Arg.bytes [0, 0, 0, 0]] enc ["rel32"]
      ⟨op, some "i", true, true⟩ = .ok ⟨[], 0, none, none, none, some [0, 0, 0, 0]⟩) :
    generate_instruction_parts arch [Arg.bytes [0, 0, 0, 0]] ["rel32"]
      ⟨op, some "i", true, true⟩ enc
      = .ok ⟨[], [], opB, [[0, 0, 0, 0]]⟩ := by
  unfold generate_instruction_parts
  rw [show (⟨op, some "i", true, true⟩ : ModeV).opcode = op from rfl]
  rw [hsplit]
  dsimp only [List.map]
  rw [show String.mk op.toList = op from rfl]
  have hc : ¬ (List.take 2 [op] = ["REX.W", "+"]) := by simp
  simp only [if_neg hc]
  dsimp only [List.get?]
  simp only [bind, Except.bind]
  rw [hplus]
  simp only [Bool.false_eq_true, if_false, hhex]
  rw [hparse]
  rfl
end Asm

namespace Asm

lemma relBranchCode_rel32 (arch : Nat) (cls : InstrCls) (op : String) (opB : Bytes)
    (hsel : select_instruction_mode arch cls.name cls.modes ["rel32"]
      = .ok (["rel32"], ⟨op, some "i", true, true⟩))
    (hsplit : splitOnCharL ' ' op.toList = [op.toList])
    (hplus : op.toList.contains '+' = false)
    (hhex : hexParseL op.toList = some opB)
    (hparse : parse_operands arch [Arg.bytes [0, 0, 0, 0]] cls.operand_enc ["rel32"]
      ⟨op, some "i", true, true⟩ = .ok ⟨[], 0, none, none, none, some [0, 0, 0, 0]⟩) :
    (∀ s : String, relBranchCode arch cls (.label s)
      = .ok (.deferred (opB ++ [0, 0, 0, 0]) [⟨opB.length, s ++ " - next_instr_addr", 'i'⟩])) ∧
    (∀ N : Int, -(2^31) ≤ N - (opB.length + 4) → N - (opB.length + 4) < 2^31 →
      relBranchCode arch cls (.int N)
        = .ok (.plain (opB ++ toLE 4 (N - (opB.length + 4))))) := by
  have hgen := gen_parts_rel32 arch op opB cls.operand_enc hsplit hplus hhex hparse
  have hscan : relScan ["rel32"] 0 [[0, 0, 0, 0]]
      (([] : List Bytes).flatten ++ ([] : Bytes) ++ opB) none
      = .ok (opB ++ [0, 0, 0, 0], some (opB.length, 4)) := by
    unfold relScan
    dsimp only [List.get?]
    simp only [bind, Except.bind]
    unfold relScan
    simp [strStartsWith, startsWithL]
  have hdrop : (opB ++ [(0 : Nat), 0, 0, 0]).drop (opB.length + 4) = [] := by
    rw [show opB.length + 4 = (opB ++ [(0 : Nat), 0, 0, 0]).length from by simp]
    exact List.drop_length _
  have htake : (opB ++ [(0 : Nat), 0, 0, 0]).take opB.length = opB := List.take_left _ _
  constructor
  · intro s
    unfold relBranchCode
    dsimp only
    rw [hsel]
    simp only [bind, Except.bind]
    rw [hgen]
    dsimp only
    rw [hscan]
  · intro N hlo hhi
    have hps : packSigned 4 (N - (opB.length + 4)) = some (toLE 4 (N - (opB.length + 4))) := by
      unfold packSigned
      rw [if_pos]
      constructor
      · exact le_trans (by norm_num) hlo
      · exact lt_of_lt_of_le hhi (by norm_num)
    unfold relBranchCode
    dsimp only
    rw [hsel]
    simp only [bind, Except.bind]
    rw [hgen]
    dsimp only
    rw [hscan]
    dsimp only
    rw [show ((N - ↑(List.length (opB ++ [0, 0, 0, 0]))) : Int) = N - (opB.length + 4) by
      simp [List.length_append]]
    rw [show packWidth 'i' = 4 from rfl, hps]
    dsimp only
    rw [htake, hdrop]
    simp

end Asm

namespace Asm

/-- C4: for `jmp` and any `_jcc` conditional branch, an integer target N is
emitted as opcode bytes followed by `N - len(instruction)` packed signed
little-endian (displacement relative to the next instruction), and a label
target is emitted with a zero displacement plus exactly one deferred fill at
the displacement byte offset whose expression is
`"<label> - next_instr_addr"` and whose packing character is the 4-byte
signed rel32 width. -/
theorem C4_rel_branch :
    (∀ arch, arch = 32 ∨ arch = 64 →
      (∀ N : Int, -(2 ^ 31) ≤ N - 5 → N - 5 < 2 ^ 31 →
        relBranchCode arch jmpCls (.int N)
          = .ok (.plain ([0xe9] ++ toLE 4 (N - 5)))
        ∧ packSigned 4 (N - 5) = some (toLE 4 (N - 5))
        ∧ ([0xe9] ++ toLE 4 (N - 5)).length = 5)
      ∧ (∀ s : String, relBranchCode arch jmpCls (.label s)
          = .ok (.deferred [0xe9, 0, 0, 0, 0]
              [⟨1, s ++ " - next_instr_addr", 'i'⟩])
        ∧ packWidth 'i' = 4))
    ∧ (∀ nm op : String, ∀ opB : Bytes,
      splitOnCharL ' ' op.toList = [op.toList] →
      op.toList.contains '+' = false →
      hexParseL op.toList = some opB →
      ∀ arch, arch = 32 ∨ arch = 64 →
      (∀ N : Int, -(2 ^ 31) ≤ N - (opB.length + 4) → N - (opB.length + 4) < 2 ^ 31 →
        relBranchCode arch (jccCls nm op) (.int N)
          = .ok (.plain (opB ++ toLE 4 (N - (opB.length + 4))))
        ∧ packSigned 4 (N - (opB.length + 4)) = some (toLE 4 (N - (opB.length + 4)))
        ∧ (opB ++ toLE 4 (N - (opB.length + 4))).length = opB.length + 4)
      ∧ (∀ s : String, relBranchCode arch (jccCls nm op) (.label s)
          = .ok (.deferred (opB ++ [0, 0, 0, 0])
              [⟨opB.length, s ++ " - next_instr_addr", 'i'⟩])
        ∧ packWidth 'i' = 4)) := by
  constructor
  · intro arch harch
    have h := relBranchCode_rel32 arch jmpCls "e9" [0xe9]
      (by rcases harch with rfl | rfl <;> rfl)
      (by decide) (by decide) (by decide) (by rfl)
    constructor
    · intro N hlo hhi
      have hi := h.2 N (by simpa using hlo) (by simpa using hhi)
      have hps : packSigned 4 (N - 5) = some (toLE 4 (N - 5)) := by
        unfold packSigned
        rw [if_pos ⟨le_trans (by norm_num) hlo, lt_of_lt_of_le hhi (by norm_num)⟩]
      refine ⟨?_, hps, ?_⟩
      · rw [hi]
        norm_num
      · simp [toLE_length]
    · intro s
      exact ⟨h.1 s, rfl⟩
  · intro nm op opB hsplit hplus hhex arch harch
    have hparse : parse_operands arch [Arg.bytes [0, 0, 0, 0]] (jccCls nm op).operand_enc
        ["rel32"] ⟨op, some "i", true, true⟩
        = .ok ⟨[], 0, none, none, none, some [0, 0, 0, 0]⟩ := by rfl
    have h := relBranchCode_rel32 arch (jccCls nm op) op opB
      (by rcases harch with rfl | rfl <;> rfl)
      hsplit hplus hhex hparse
    constructor
    · intro N hlo hhi
      have hps : packSigned 4 (N - (opB.length + 4))
          = some (toLE 4 (N - (opB.length + 4))) := by
        unfold packSigned
        rw [if_pos ⟨le_trans (by norm_num) hlo, lt_of_lt_of_le hhi (by norm_num)⟩]
      exact ⟨h.2 N hlo hhi, hps, by simp [toLE_length]⟩
    · intro s
      exact ⟨h.1 s, rfl⟩

/-- Witness for C4 at concrete inputs: `jmp 5` on a 64-bit process encodes
to `e9 00 00 00 00` (zero displacement: 5 is exactly the instruction
length), and `ja` to label "a" defers a fill at offset 2 after its two
opcode bytes. -/
theorem C4_rel_branch_witness :
    relBranchCode 64 jmpCls (.int 5) = .ok (.plain [0xe9, 0, 0, 0, 0])
    ∧ relBranchCode 64 (jccCls "ja" "0f87") (.label "a")
      = .ok (.deferred [0x0f, 0x87, 0, 0, 0, 0]
          [⟨2, "a - next_instr_addr", 'i'⟩]) := by
  constructor
  · have h := ((C4_rel_branch.1 64 (Or.inr rfl)).1 5 (by norm_num) (by norm_num)).1
    simpa using h
  · have h := ((C4_rel_branch.2 "ja" "0f87" [0x0f, 0x87]
      (by decide) (by decide) (by decide) 64 (Or.inr rfl)).2 "a").1
    simpa using h

end Asm

namespace Asm

/-- All fills of a deferred buffer target ranges inside the buffer. -/
def codeInBounds : CodeV → Bool
  | .plain _ => true
  | .deferred code repl =>
    repl.all (fun f => decide (f.index + packWidth f.packing ≤ code.length))

/-- `codeInBounds` lifted to program entries. -/
def itemInBounds : AsmItem → Bool
  | .label _ => true
  | .instr c => codeInBounds c

lemma packSigned_length (w : Nat) (v : Int) (b : Bytes)
    (h : packSigned w v = some b) : b.length = w := by
  unfold packSigned at h
  split at h
  · cases h
    exact toLE_length w v
  · cases h

lemma codeFill_length (syms : List (String × Int)) :
    ∀ (fills : List Fill) (code out : Bytes),
      (∀ f ∈ fills, f.index + packWidth f.packing ≤ code.length) →
      codeFill syms fills code = .ok out → out.length = code.length := by
  intro fills
  induction fills with
  | nil =>
    intro code out _ h
    cases h
    rfl
  | cons f rest ih =>
    intro code out hb h
    unfold codeFill at h
    cases hv : evalExpr syms f.expr with
    | error e => simp [hv, bind, Except.bind] at h
    | ok v =>
      cases hp : packSigned (packWidth f.packing) v with
      | none => simp [hv, hp, bind, Except.bind] at h
      | some packed =>
        simp only [hv, hp, bind, Except.bind] at h
        have hpl : packed.length = packWidth f.packing := packSigned_length _ _ _ hp
        have hbf : f.index + packWidth f.packing ≤ code.length :=
          hb f (List.mem_cons_self f rest)
        have hlen : (code.take f.index ++ packed ++ code.drop (f.index + packed.length)).length
            = code.length := by
          simp [List.length_append, List.length_take, List.length_drop]
          omega
        have := ih (code.take f.index ++ packed ++ code.drop (f.index + packed.length)) out
          (by
            intro g hg
            rw [hlen]
            exact hb g (List.mem_cons_of_mem f hg)) h
        rw [this, hlen]

lemma codeCompile_length (syms : List (String × Int)) (c : CodeV) (b : Bytes)
    (hin : codeInBounds c = true) (h : codeCompile syms c = .ok b) :
    b.length = c.length := by
  cases c with
  | plain x =>
    cases h
    rfl
  | deferred code repl =>
    have hb : ∀ f ∈ repl, f.index + packWidth f.packing ≤ code.length := by
      intro f hf
      have := (List.all_eq_true.mp hin) f hf
      exact of_decide_eq_true this
    exact codeFill_length syms repl code b hb h

lemma emitPass_length (pageAddr : Int) (labels : List (String × Int)) :
    ∀ (items : List AsmItem) (code0 out : Bytes),
      (∀ i ∈ items, itemInBounds i = true) →
      emitPass pageAddr labels items code0 = .ok out →
      out.length = code0.length + (items.map itemLen).sum := by
  intro items
  induction items with
  | nil =>
    intro code0 out _ h
    cases h
    simp
  | cons cmd rest ih =>
    intro code0 out hin h
    cases cmd with
    | label n =>
      have := ih code0 out (fun i hi => hin i (List.mem_cons_of_mem _ hi)) h
      simpa [itemLen] using this
    | instr c =>
      unfold emitPass at h
      cases c with
      | plain b =>
        simp only [bind, Except.bind] at h
        have := ih (code0 ++ b) out (fun i hi => hin i (List.mem_cons_of_mem _ hi)) h
        rw [this]
        simp [itemLen, CodeV.length]
        omega
      | deferred code repl =>
        simp only [bind, Except.bind] at h
        cases hc : codeCompile
            (setSym (setSym labels "instr_addr" (pageAddr + ↑code0.length))
              "next_instr_addr" (pageAddr + ↑code0.length + ↑(CodeV.deferred code repl).length))
            (.deferred code repl) with
        | error e => rw [hc] at h; cases h
        | ok bytes =>
          rw [hc] at h
          have hinc : codeInBounds (.deferred code repl) = true :=
            hin (.instr (.deferred code repl)) (List.mem_cons_self _ _)
          have hbl : bytes.length = (CodeV.deferred code repl).length :=
            codeCompile_length _ _ _ hinc hc
          have := ih (code0 ++ bytes) out (fun i hi => hin i (List.mem_cons_of_mem _ hi)) h
          rw [this]
          simp [itemLen, List.length_append, hbl]
          omega

lemma emitPass_append (pageAddr : Int) (labels : List (String × Int)) :
    ∀ (pre post : List AsmItem) (code0 : Bytes),
      emitPass pageAddr labels (pre ++ post) code0
        = (emitPass pageAddr labels pre code0).bind
            (fun mid => emitPass pageAddr labels post mid) := by
  intro pre
  induction pre with
  | nil =>
    intro post code0
    simp [emitPass, Except.bind]
  | cons cmd rest ih =>
    intro post code0
    cases cmd with
    | label n =>
      show emitPass pageAddr labels (rest ++ post) code0 = _
      rw [ih]
      rfl
    | instr c =>
      show Except.bind _ _ = Except.bind (Except.bind _ _) _
      cases hM : (match c with
        | .plain b => .ok b
        | .deferred _ _ =>
          codeCompile
            (setSym (setSym labels "instr_addr" (pageAddr + ↑code0.length))
              "next_instr_addr" (pageAddr + ↑code0.length + ↑c.length)) c
        : Except String Bytes) with
      | error e => simp [hM, Except.bind]
      | ok bytes =>
        simp only [hM, Except.bind]
        exact ih post (code0 ++ bytes)

lemma labelPass_append :
    ∀ (pre post : List AsmItem) (ptr : Int) (syms : List (String × Int)),
      labelPass ptr (pre ++ post) syms
        = labelPass (ptr + ((pre.map itemLen).sum : Int)) post (labelPass ptr pre syms) := by
  intro pre
  induction pre with
  | nil =>
    intro post ptr syms
    simp [labelPass]
  | cons cmd rest ih =>
    intro post ptr syms
    have harith : ptr + ((((cmd :: rest).map itemLen).sum : Nat) : Int)
        = (ptr + itemLen cmd) + (((rest.map itemLen).sum : Nat) : Int) := by
      simp [List.map_cons, List.sum_cons]
      ring
    cases cmd with
    | label n =>
      show labelPass (ptr + itemLen (.label n)) (rest ++ post)
          (setSym syms n (ptr + itemLen (.label n))) = _
      rw [ih, harith]
      rfl
    | instr c =>
      show labelPass (ptr + itemLen (.instr c)) (rest ++ post) syms = _
      rw [ih, harith]
      rfl

end Asm

namespace Asm

/-- C9: a label has length 0; resolving a deferred `Code` buffer preserves
its length, so `len(instr)` equals the length of the final machine code;
`emitPass` therefore appends exactly `sum (map itemLen)` bytes; and the two
passes of `CodePage.compile` agree: at every split point of the program the
pass-1 label cursor and the pass-2 byte offset both equal the page address
plus the summed lengths of the preceding entries. -/
theorem C9_length_consistency :
    (∀ n : String, itemLen (.label n) = 0)
    ∧ (∀ (syms : List (String × Int)) (c : CodeV) (b : Bytes),
        codeInBounds c = true → codeCompile syms c = .ok b → b.length = c.length)
    ∧ (∀ (pageAddr : Int) (labels : List (String × Int)) (items : List AsmItem)
        (code0 out : Bytes),
        (∀ i ∈ items, itemInBounds i = true) →
        emitPass pageAddr labels items code0 = .ok out →
        out.length = code0.length + (items.map itemLen).sum)
    ∧ (∀ (pageAddr : Int) (pre post : List AsmItem),
        labelPass pageAddr (pre ++ post) []
          = labelPass (pageAddr + ((pre.map itemLen).sum : Int)) post
              (labelPass pageAddr pre [])
        ∧ ∀ (labels : List (String × Int)) (out : Bytes),
            (∀ i ∈ pre, itemInBounds i = true) →
            emitPass pageAddr labels (pre ++ post) [] = .ok out →
            ∃ codePre, emitPass pageAddr labels pre [] = .ok codePre
              ∧ codePre.length = (pre.map itemLen).sum
              ∧ emitPass pageAddr labels post codePre = .ok out) := by
  refine ⟨fun n => rfl, codeCompile_length, emitPass_length, ?_⟩
  intro pageAddr pre post
  refine ⟨labelPass_append pre post pageAddr [], ?_⟩
  intro labels out hin h
  rw [emitPass_append pageAddr labels pre post []] at h
  cases hp : emitPass pageAddr labels pre [] with
  | error e => rw [hp] at h; cases h
  | ok codePre =>
    rw [hp] at h
    refine ⟨codePre, rfl, ?_, h⟩
    simpa using emitPass_length pageAddr labels pre [] codePre hin hp

/-- Witness for C9 at concrete inputs: resolving the deferred `jmp a`
buffer via its fill keeps the 5-byte length, and emitting
`[label a; ret; jmp a]` appends exactly 0 + 1 + 5 bytes. -/
theorem C9_length_consistency_witness :
    ([0xe9, 0x0b, 0, 0, 0] : Bytes).length
      = (CodeV.deferred [0xe9, 0, 0, 0, 0] [⟨1, "a - next_instr_addr", 'i'⟩]).length
    ∧ ([0xc3, 0xe9, 0xfa, 0xff, 0xff, 0xff] : Bytes).length
      = ([] : Bytes).length
        + (([AsmItem.label "a", .instr (.plain [0xc3]),
            .instr (.deferred [0xe9, 0, 0, 0, 0]
              [⟨1, "a - next_instr_addr", 'i'⟩])].map itemLen).sum) := by
  constructor
  · exact C9_length_consistency.2.1
      [("a", 16), ("next_instr_addr", 5)]
      (CodeV.deferred [0xe9, 0, 0, 0, 0] [⟨1, "a - next_instr_addr", 'i'⟩])
      [0xe9, 0x0b, 0, 0, 0] (by decide) (by decide)
  · exact C9_length_consistency.2.2.1 0
      (labelPass 0 [AsmItem.label "a", .instr (.plain [0xc3]),
        .instr (.deferred [0xe9, 0, 0, 0, 0] [⟨1, "a - next_instr_addr", 'i'⟩])] [])
      [AsmItem.label "a", .instr (.plain [0xc3]),
        .instr (.deferred [0xe9, 0, 0, 0, 0] [⟨1, "a - next_instr_addr", 'i'⟩])]
      [] [0xc3, 0xe9, 0xfa, 0xff, 0xff, 0xff] (by decide) (by decide)

end Asm

namespace Asm

lemma lookupSym_setSym_self (syms : List (String × Int)) (k : String) (v : Int) :
    lookupSym (setSym syms k v) k = .ok v := by
  induction syms with
  | nil => simp [setSym, lookupSym]
  | cons p rest ih =>
    obtain ⟨n, w⟩ := p
    unfold setSym
    rcases em (n = k) with h | h
    · simp [h, lookupSym]
    · simp [h, lookupSym, ih]

lemma lookupSym_setSym_ne (syms : List (String × Int)) (n k : String) (v : Int)
    (h : n ≠ k) : lookupSym (setSym syms n v) k = lookupSym syms k := by
  induction syms with
  | nil => simp [setSym, lookupSym, h]
  | cons p rest ih =>
    obtain ⟨m, w⟩ := p
    unfold setSym
    rcases em (m = n) with hm | hm
    · subst hm
      simp [lookupSym, h]
    · simp only [hm, if_false]
      unfold lookupSym
      rcases em (m = k) with hk | hk
      · simp [hk]
      · simp [hk, ih]

lemma lookupSym_labelPass_notin (name : String) :
    ∀ (post : List AsmItem) (c : Int) (syms : List (String × Int)),
      AsmItem.label name ∉ post →
      lookupSym (labelPass c post syms) name = lookupSym syms name := by
  intro post
  induction post with
  | nil =>
    intro c syms _
    rfl
  | cons cmd rest ih =>
    intro c syms hni
    cases cmd with
    | label n =>
      have hne : n ≠ name := by
        intro he
        exact hni (by rw [he]; exact List.mem_cons_self _ _)
      show lookupSym (labelPass (c + itemLen (.label n)) rest
        (setSym syms n (c + itemLen (.label n)))) name = _
      rw [ih (c + itemLen (.label n)) _ (fun hm => hni (List.mem_cons_of_mem _ hm))]
      exact lookupSym_setSym_ne syms n name _ hne
    | instr cv =>
      exact ih _ syms (fun hm => hni (List.mem_cons_of_mem _ hm))

end Asm

namespace Asm

/-- C5 counterexample: the structured `CodePage.compile` path accepts a
program defining the label "a" twice and compiles it without any error. -/
theorem C5_counterexample :
    codePageCompile 0 [.label "a", .instr (.plain [0xc3]), .label "a"] = .ok [0xc3] := by
  decide

/-- C5 (amended): only the textual front-end (`parse_asm` in
`pyca/asm/parser.py`) rejects a duplicate label with a `NameError`; the
structured `CodePage.compile` path never checks, and a repeated label name
silently resolves to the address of its *last* definition. -/
theorem C5_duplicate_labels :
    (∀ (lineno : Nat) (lbl : String) (rest : List (Nat × String))
        (ns : List String) (acc : List CleanItem),
      trimS (lbl ++ ":") = lbl ++ ":" →
      partitionChar (lbl ++ ":") '#' = (lbl ++ ":", false, "") →
      partitionChar (lbl ++ ":") ':' = (lbl, true, "") →
      matchLabelName lbl = some lbl →
      ns.contains lbl = true →
      parse_asm_pass1 ((lineno, lbl ++ ":") :: rest) ns acc
        = .error ("NameError: duplicate symbol " ++ lbl ++ " on assembly line " ++
            toString lineno ++ ": " ++ (lbl ++ ":")))
    ∧ (∀ (ptr : Int) (pre post : List AsmItem) (name : String),
      AsmItem.label name ∉ post →
      lookupSym (labelPass ptr (pre ++ .label name :: post) []) name
        = .ok (ptr + ((pre.map itemLen).sum : Int))) := by
  constructor
  · intro lineno lbl rest ns acc h1 h2 h3 h4 h5
    have h0 : ¬ (lbl ++ ":" = "") := by
      intro he
      have h3e := h3
      rw [he] at h3e
      have : (partitionChar "" ':').2.1 = true := by rw [h3e]
      simp [partitionChar] at this
    unfold parse_asm_pass1
    dsimp only
    rw [h1]
    rw [if_neg h0]
    rw [h2]
    dsimp only
    rw [h3]
    dsimp only
    simp only [not_true, if_neg, if_false]
    rw [h4]
    dsimp only
    simp only [h5, if_true]
  · intro ptr pre post name hni
    rw [labelPass_append pre (.label name :: post) ptr []]
    show lookupSym (labelPass _ post (setSym (labelPass ptr pre []) name _)) name = _
    rw [lookupSym_labelPass_notin name post _ _ hni]
    have harith : (ptr + ((pre.map itemLen).sum : Int)) + ((itemLen (.label name) : Nat) : Int)
        = ptr + ((pre.map itemLen).sum : Int) := by
      simp [itemLen]
    rw [show ((itemLen (AsmItem.label name) : Nat) : Int) = 0 from rfl]
    rw [show ptr + ((pre.map itemLen).sum : Int) + 0 = ptr + ((pre.map itemLen).sum : Int) by ring]
    exact lookupSym_setSym_self _ name _

/-- Witness for C5 at concrete inputs: the textual pass rejects a second
definition of "a", while the structured label pass resolves the repeated
"a" to its last address. -/
theorem C5_duplicate_labels_witness :
    parse_asm_pass1 [(3, "a" ++ ":")] ["a"] []
      = .error ("NameError: duplicate symbol " ++ "a" ++ " on assembly line " ++
          toString 3 ++ ": " ++ ("a" ++ ":"))
    ∧ lookupSym (labelPass 0
        ([.label "a", .instr (.plain [0xc3])] ++ .label "a" :: []) []) "a"
      = .ok (0 + ((([AsmItem.label "a", .instr (.plain [0xc3])].map itemLen).sum : Nat) : Int)) := by
  constructor
  · exact C5_duplicate_labels.1 3 "a" [] ["a"] []
      (by decide) (by decide) (by decide) (by decide) (by decide)
  · exact C5_duplicate_labels.2 0 [.label "a", .instr (.plain [0xc3])] [] "a" (by decide)

end Asm

namespace Asm

/-- One operand pair checks `True`. -/
def strongB (p : String × String) : Bool := decide (check_mode p.1 p.2 = .ok CheckRes.t)

/-- One operand pair checks `True` or an integer (a weak accept). -/
def acceptB (p : String × String) : Bool :=
  match check_mode p.1 p.2 with
  | .ok .t => true
  | .ok (.weak _) => true
  | _ => false

/-- Spec side of C2: every operand of the candidate accepts strongly. -/
def rowStrong (sig mode : Sig) : Bool := (sig.zip mode).all strongB

/-- Spec side of C2: every operand of the candidate accepts at least weakly. -/
def rowAccepts (sig mode : Sig) : Bool := (sig.zip mode).all acceptB

/-- Spec side of C2: the first declared candidate of matching arity that
every operand accepts strongly. -/
def firstStrong (sig : Sig) (modesF : ModeTable) : Option (Sig × ModeV) :=
  modesF.find? (fun sm => decide (sm.1.length = sig.length) && rowStrong sig sm.1)

/-- Spec side of C2: the first declared candidate of matching arity that
every operand accepts. -/
def firstAccept (sig : Sig) (modesF : ModeTable) : Option (Sig × ModeV) :=
  modesF.find? (fun sm => decide (sm.1.length = sig.length) && rowAccepts sig sm.1)

/-- Mode selection as worded by the specification: filter by bitness, take
an exact key, otherwise the first strongly accepted candidate, otherwise
the first (weakly) accepted candidate, otherwise a TypeError naming the
mnemonic and the signature tuple. -/
def select_instruction_mode_spec (arch : Nat) (name : String) (modes : ModeTable)
    (sig : Sig) : Except String (Sig × ModeV) :=
  let modesF := archFilter arch modes
  match lookupSig modesF sig with
  | some mv => .ok (sig, mv)
  | none =>
    match firstStrong sig modesF with
    | some sm => .ok sm
    | none =>
      match firstAccept sig modesF with
      | some sm => .ok sm
      | none => .error (errNoMode name sig)

set_option maxHeartbeats 1600000 in
lemma check_modeGo_weak : ∀ (fuel : Nat) (sig mode : List Char) (k : Int),
    check_modeGo fuel sig mode = .ok (.weak k) → k = 0 := by
  intro fuel
  induction fuel with
  | zero =>
    intro sig mode k h
    unfold check_modeGo at h
    dsimp only at h
    repeat' split at h
    all_goals first
      | (injection h; done)
      | (injection h with h1; injection h1; done)
      | (injection h with h1; injection h1 with h2; exact h2.symm)
  | succ n ih =>
    intro sig mode k h
    unfold check_modeGo at h
    dsimp only at h
    repeat' split at h
    all_goals first
      | exact ih _ _ _ h
      | (injection h; done)
      | (injection h with h1; injection h1; done)
      | (injection h with h1; injection h1 with h2; exact h2.symm)


lemma check_mode_weak (s m : String) (k : Int) (h : check_mode s m = .ok (.weak k)) :
    k = 0 :=
  check_modeGo_weak _ _ _ _ h

lemma checkRow_all_strong : ∀ (pairs : List (String × String)) (acc : Option Int),
    pairs.all strongB = true →
    checkRow pairs acc = .ok (match acc with | none => .strong | some k => .weak k) := by
  intro pairs
  induction pairs with
  | nil =>
    intro acc _
    cases acc <;> rfl
  | cons p rest ih =>
    obtain ⟨s, m⟩ := p
    intro acc hall
    simp only [List.all_cons, Bool.and_eq_true] at hall
    have hp : check_mode s m = .ok CheckRes.t := of_decide_eq_true hall.1
    unfold checkRow
    simp only [bind, Except.bind, hp]
    exact ih acc hall.2

lemma checkRow_strong_inv : ∀ (pairs : List (String × String)) (acc : Option Int),
    checkRow pairs acc = .ok .strong → acc = none ∧ pairs.all strongB = true := by
  intro pairs
  induction pairs with
  | nil =>
    intro acc h
    cases acc with
    | none => exact ⟨rfl, rfl⟩
    | some k => simp [checkRow] at h
  | cons p rest ih =>
    obtain ⟨s, m⟩ := p
    intro acc h
    unfold checkRow at h
    cases hc : check_mode s m with
    | error e => simp [hc, bind, Except.bind] at h
    | ok c =>
      simp only [hc, bind, Except.bind] at h
      cases c with
      | t =>
        obtain ⟨ha, hrest⟩ := ih acc h
        refine ⟨ha, ?_⟩
        simp [List.all_cons, strongB, hc, hrest]
      | f => simp at h
      | weak k =>
        obtain ⟨ha, _⟩ := ih _ h
        cases ha

lemma checkRow_all_accept : ∀ (pairs : List (String × String)) (acc : Option Int),
    (∀ a, acc = some a → a = 0) →
    pairs.all acceptB = true →
    checkRow pairs acc = .ok .strong ∨ checkRow pairs acc = .ok (.weak 0) := by
  intro pairs
  induction pairs with
  | nil =>
    intro acc hz _
    cases acc with
    | none => exact Or.inl rfl
    | some a => exact Or.inr (by rw [hz a rfl]; rfl)
  | cons p rest ih =>
    obtain ⟨s, m⟩ := p
    intro acc hz hall
    simp only [List.all_cons, Bool.and_eq_true] at hall
    unfold checkRow
    cases hc : check_mode s m with
    | error e =>
      exfalso
      have := hall.1
      unfold acceptB at this
      rw [hc] at this
      cases this
    | ok c =>
      simp only [hc, bind, Except.bind]
      cases c with
      | t => exact ih acc hz hall.2
      | f =>
        exfalso
        have := hall.1
        unfold acceptB at this
        rw [hc] at this
        cases this
      | weak k =>
        have hk0 : k = 0 := check_mode_weak s m k hc
        subst hk0
        refine ih _ ?_ hall.2
        intro a ha
        cases acc with
        | none => cases ha; rfl
        | some b =>
          have hb0 : b = 0 := hz b rfl
          cases ha
          rw [hb0]
          rfl

lemma checkRow_weak_inv : ∀ (pairs : List (String × String)) (acc : Option Int) (k : Int),
    checkRow pairs acc = .ok (.weak k) →
    pairs.all acceptB = true ∧ ((∀ a, acc = some a → a = 0) → k = 0) := by
  intro pairs
  induction pairs with
  | nil =>
    intro acc k h
    cases acc with
    | none => simp [checkRow] at h
    | some a =>
      refine ⟨rfl, fun hz => ?_⟩
      have : a = k := by
        have := h
        unfold checkRow at this
        exact RowRes.weak.inj (Except.ok.inj this)
      rw [hz a rfl] at this
      exact this.symm
  | cons p rest ih =>
    obtain ⟨s, m⟩ := p
    intro acc k h
    unfold checkRow at h
    cases hc : check_mode s m with
    | error e => simp [hc, bind, Except.bind] at h
    | ok c =>
      simp only [hc, bind, Except.bind] at h
      cases c with
      | t =>
        obtain ⟨hrest, hkz⟩ := ih acc k h
        refine ⟨?_, hkz⟩
        simp [List.all_cons, acceptB, hc, hrest]
      | f => simp at h
      | weak k0 =>
        have hk0 : k0 = 0 := check_mode_weak s m k0 hc
        subst hk0
        obtain ⟨hrest, hkz⟩ := ih _ k h
        constructor
        · simp [List.all_cons, acceptB, hc, hrest]
        · intro hz
          refine hkz ?_
          intro a ha
          cases acc with
          | none => cases ha; rfl
          | some b =>
            have hb0 : b = 0 := hz b rfl
            cases ha
            rw [hb0]
            rfl


lemma selectLoop_characterize (sig : Sig) :
    ∀ (modesF : ModeTable) (backup : Option (Int × Sig × ModeV)),
      (∀ mode mv, (mode, mv) ∈ modesF → mode.length = sig.length →
        ∀ e, checkRow (sig.zip mode) none ≠ .error e) →
      (∀ b, backup = some b → b.1 = 0) →
      selectLoop sig modesF backup
        = .ok (match firstStrong sig modesF, backup with
            | some sm, _ => some sm
            | none, some b => some b.2
            | none, none => firstAccept sig modesF) := by
  intro modesF
  induction modesF with
  | nil =>
    intro backup _ _
    cases backup <;> simp [selectLoop, firstStrong, firstAccept]
  | cons sm rest ih =>
    obtain ⟨mode, mv⟩ := sm
    intro backup htot hb
    have htot1 : ∀ m v, (m, v) ∈ rest → m.length = sig.length →
        ∀ e, checkRow (sig.zip m) none ≠ .error e :=
      fun m v hm hl e => htot m v (List.mem_cons_of_mem _ hm) hl e
    unfold selectLoop
    rcases em (mode.length = sig.length) with hlen | hlen
    · rw [if_neg (not_not_intro hlen)]
      simp only [bind, Except.bind]
      cases hc : checkRow (sig.zip mode) none with
      | error e =>
        exact absurd hc (htot mode mv (List.mem_cons_self _ _) hlen e)
      | ok r =>
        dsimp only
        cases r with
        | strong =>
          have hs := checkRow_strong_inv _ _ hc
          have e1 : firstStrong sig ((mode, mv) :: rest) = some (mode, mv) := by
            unfold firstStrong
            rw [List.find?_cons_of_pos]
            simp [rowStrong, hlen, hs.2]
          rw [e1]
        | no =>
          have hstrongF : rowStrong sig mode = false := by
            rcases Bool.eq_false_or_eq_true (rowStrong sig mode) with h | h
            · exfalso
              have := checkRow_all_strong (sig.zip mode) none h
              rw [hc] at this
              simp at this
            · exact h
          have hacceptF : rowAccepts sig mode = false := by
            rcases Bool.eq_false_or_eq_true (rowAccepts sig mode) with h | h
            · exfalso
              rcases checkRow_all_accept (sig.zip mode) none (fun a ha => by cases ha) h with
                h1 | h1 <;> rw [hc] at h1 <;> simp at h1
            · exact h
          have e1 : firstStrong sig ((mode, mv) :: rest) = firstStrong sig rest := by
            unfold firstStrong
            rw [List.find?_cons_of_neg]
            simp [hstrongF]
          have e2 : firstAccept sig ((mode, mv) :: rest) = firstAccept sig rest := by
            unfold firstAccept
            rw [List.find?_cons_of_neg]
            simp [hacceptF]
          rw [e1, e2]
          exact ih backup htot1 hb
        | weak k =>
          have hw := checkRow_weak_inv _ _ _ hc
          have hk0 : k = 0 := hw.2 (fun a ha => by cases ha)
          subst hk0
          have hacceptT : rowAccepts sig mode = true := hw.1
          have hstrongF : rowStrong sig mode = false := by
            rcases Bool.eq_false_or_eq_true (rowStrong sig mode) with h | h
            · exfalso
              have := checkRow_all_strong (sig.zip mode) none h
              rw [hc] at this
              simp at this
            · exact h
          have e1 : firstStrong sig ((mode, mv) :: rest) = firstStrong sig rest := by
            unfold firstStrong
            rw [List.find?_cons_of_neg]
            simp [hstrongF]
          cases backup with
          | none =>
            dsimp only
            rw [ih (some (0, mode, mv)) htot1 (by intro b hb1; cases hb1; rfl)]
            rw [e1]
            have e2 : firstAccept sig ((mode, mv) :: rest) = some (mode, mv) := by
              unfold firstAccept
              rw [List.find?_cons_of_pos]
              simp [hlen, hacceptT]
            rw [e2]
            cases hfs : firstStrong sig rest <;> rfl
          | some b =>
            have hb0 : b.1 = 0 := hb b rfl
            dsimp only
            rw [show (if b.1 < (0 : Int) then some ((0 : Int), mode, mv) else some b)
                = some b from by rw [hb0]; simp]
            rw [ih (some b) htot1 hb]
            rw [e1]
            cases hfs : firstStrong sig rest <;> rfl
    · rw [if_pos hlen]
      have e1 : firstStrong sig ((mode, mv) :: rest) = firstStrong sig rest := by
        unfold firstStrong
        rw [List.find?_cons_of_neg]
        simp [hlen]
      have e2 : firstAccept sig ((mode, mv) :: rest) = firstAccept sig rest := by
        unfold firstAccept
        rw [List.find?_cons_of_neg]
        simp [hlen]
      rw [e1, e2]
      exact ih backup htot1 hb


/-- C2: mode selection first filters the table by process bitness, takes an
exact signature key when present, otherwise selects the first declared
candidate every operand accepts strongly, falling back to the first weakly
('u'-hinted) accepted candidate only when no strong candidate exists, and
raises a TypeError naming the mnemonic and the signature tuple when nothing
accepts - stated as agreement with the spec-worded selection procedure,
under the hypothesis that no operand check raises. -/
theorem C2_mode_selection (arch : Nat) (name : String) (modes : ModeTable) (sig : Sig)
    (htot : ∀ mode mv, (mode, mv) ∈ archFilter arch modes → mode.length = sig.length →
      ∃ r, checkRow (sig.zip mode) none = .ok r) :
    select_instruction_mode arch name modes sig
      = select_instruction_mode_spec arch name modes sig := by
  have htot2 : ∀ mode mv, (mode, mv) ∈ archFilter arch modes → mode.length = sig.length →
      ∀ e, checkRow (sig.zip mode) none ≠ .error e := by
    intro mode mv hm hl e he
    obtain ⟨r, hr⟩ := htot mode mv hm hl
    rw [hr] at he
    exact Except.noConfusion he
  unfold select_instruction_mode select_instruction_mode_spec
  dsimp only
  cases hk : lookupSig (archFilter arch modes) sig with
  | some mv =>
    rfl
  | none =>
    dsimp only
    simp only [bind, Except.bind]
    rw [selectLoop_characterize sig (archFilter arch modes) none htot2
      (fun b hb => by cases hb)]
    dsimp only
    cases hfs : firstStrong sig (archFilter arch modes) with
    | some sm => rfl
    | none =>
      cases hfa : firstAccept sig (archFilter arch modes) <;> rfl

/-- Witness for C2 at concrete inputs: the `mov` table with the signature
of `mov r32, imm64u`, where the engine and the spec procedure agree (both
fall back to the weak `imm32` candidate). -/
theorem C2_mode_selection_witness :
    select_instruction_mode 64 "mov" movCls.modes ["r32", "imm64u"]
      = select_instruction_mode_spec 64 "mov" movCls.modes ["r32", "imm64u"] :=
  C2_mode_selection 64 "mov" movCls.modes ["r32", "imm64u"]
    (by
      have hall : (archFilter 64 movCls.modes).all
          (fun sm => match checkRow (["r32", "imm64u"].zip sm.1) none with
            | .ok _ => true
            | .error _ => false) = true := by decide
      intro mode mv hm hl
      have hthis := (List.all_eq_true.mp hall) (mode, mv) hm
      dsimp only at hthis
      cases hcr : checkRow (["r32", "imm64u"].zip mode) none with
      | error e => rw [hcr] at hthis; cases hthis
      | ok r => exact ⟨r, rfl⟩)

end Asm

namespace Asm

lemma packUnsigned_length (w : Nat) (v : Int) (b : Bytes)
    (h : packUnsigned w v = some b) : b.length = w := by
  unfold packUnsigned at h
  split at h
  · cases h
    exact toLE_length w v
  · cases h

/-- C3: an integer immediate is packed at the selected mode's immediate
width as a signed little-endian value, retrying unsigned at that same width
exactly when signed packing fails; a weakly matched (u-hinted) mode is
selected only when no candidate accepts strongly, i.e. when no wider signed
immediate mode was offered; and `mov eax, 0xdeadbeef` / `ret` encode to
`B8 EF BE AD DE` / `C3` on both 32- and 64-bit processes, so the program
assembles to `B8 EF BE AD DE C3`. -/
theorem C3_imm_packing :
    (∀ (arch : Nat) (use_sig : Sig) (enc_tab : List (String × List (Option String)))
        (key : Option String) (acc : PO) (i : Nat) (n : Int)
        (encList : List (Option String)) (encStr sigEntry : String) (immsize w : Nat),
      lookupEnc enc_tab key = .ok encList →
      encList.get? i = some (some encStr) →
      strStartsWith encStr "opcode +rd" = false →
      strStartsWith encStr "ModRM:r/m" = false →
      strStartsWith encStr "ModRM:reg" = false →
      strStartsWith encStr "imm" = true →
      use_sig.get? i = some sigEntry →
      toNatL (rstripSet (sigEntry.toList.drop 3) ['u']) = some immsize →
      ((immsize = 8 ∧ w = 1) ∨ (immsize = 16 ∧ w = 2) ∨ (immsize = 32 ∧ w = 4) ∨
        (immsize = 64 ∧ w = 8)) →
      (∀ b, packSigned w n = some b →
        parse_operands_step arch use_sig enc_tab key acc i (.int n)
          = .ok { acc with imm := some b })
      ∧ (packSigned w n = none → ∀ b, packUnsigned w n = some b →
        parse_operands_step arch use_sig enc_tab key acc i (.int n)
          = .ok { acc with imm := some b }))
    ∧ (∀ (arch : Nat) (name : String) (modes : ModeTable) (sig : Sig) (sm : Sig × ModeV),
      (∀ mode mv, (mode, mv) ∈ archFilter arch modes → mode.length = sig.length →
        ∀ e, checkRow (sig.zip mode) none ≠ .error e) →
      lookupSig (archFilter arch modes) sig = none →
      select_instruction_mode arch name modes sig = .ok sm →
      rowStrong sig sm.1 = false →
      firstStrong sig (archFilter arch modes) = none)
    ∧ instructionCode 64 movCls [.reg eax, .int 0xdeadbeef] = .ok [0xb8, 0xef, 0xbe, 0xad, 0xde]
    ∧ instructionCode 32 movCls [.reg eax, .int 0xdeadbeef] = .ok [0xb8, 0xef, 0xbe, 0xad, 0xde]
    ∧ instructionCode 64 retCls [] = .ok [0xc3]
    ∧ instructionCode 32 retCls [] = .ok [0xc3] := by
  refine ⟨?_, ?_, by decide, by decide, by decide, by decide⟩
  · intro arch use_sig enc_tab key acc i n encList encStr sigEntry immsize w
      hlook hgeti hop hrm hreg himm hsig htoNat hw
    have himw : immsize = 8 * w := by
      rcases hw with ⟨rfl, rfl⟩ | ⟨rfl, rfl⟩ | ⟨rfl, rfl⟩ | ⟨rfl, rfl⟩ <;> rfl
    have hwif : (if immsize = 8 then .ok 1
        else if immsize = 16 then .ok 2
        else if immsize = 32 then .ok 4
        else if immsize = 64 then .ok 8
        else .error "KeyError: imm size" : Except String Nat) = .ok w := by
      rcases hw with ⟨rfl, rfl⟩ | ⟨rfl, rfl⟩ | ⟨rfl, rfl⟩ | ⟨rfl, rfl⟩ <;> rfl
    constructor
    · intro b hb
      have hbl : b.length = w := packSigned_length w n b hb
      have hle : 8 * b.length ≤ immsize := by omega
      have hd : decide (8 * b.length ≤ immsize) = true := decide_eq_true hle
      have hpad : (immsize - 8 * b.length) / 8 = 0 := by omega
      unfold parse_operands_step
      simp only [hlook, bind, Except.bind]
      rw [hgeti]
      dsimp only
      simp only [hop, hrm, hreg, himm, Bool.false_eq_true, if_false, if_true]
      rw [hsig]
      dsimp only
      rw [htoNat]
      dsimp only
      rw [hwif]
      dsimp only
      rw [hb]
      dsimp only
      simp only [ensure, hd, if_true]
      rw [hpad]
      simp
    · intro hn b hb
      have hbl : b.length = w := packUnsigned_length w n b hb
      have hle : 8 * b.length ≤ immsize := by omega
      have hd : decide (8 * b.length ≤ immsize) = true := decide_eq_true hle
      have hpad : (immsize - 8 * b.length) / 8 = 0 := by omega
      unfold parse_operands_step
      simp only [hlook, bind, Except.bind]
      rw [hgeti]
      dsimp only
      simp only [hop, hrm, hreg, himm, Bool.false_eq_true, if_false, if_true]
      rw [hsig]
      dsimp only
      rw [htoNat]
      dsimp only
      rw [hwif]
      dsimp only
      rw [hn]
      dsimp only
      rw [hb]
      dsimp only
      simp only [ensure, hd, if_true]
      rw [hpad]
      simp
  · intro arch name modes sig sm htot hlk hsel hrs
    unfold select_instruction_mode at hsel
    dsimp only at hsel
    rw [hlk] at hsel
    dsimp only at hsel
    simp only [bind, Except.bind] at hsel
    rw [selectLoop_characterize sig (archFilter arch modes) none htot
      (fun b hb => by cases hb)] at hsel
    cases hfs : firstStrong sig (archFilter arch modes) with
    | none => rfl
    | some sm0 =>
      exfalso
      rw [hfs] at hsel
      dsimp only at hsel
      have hsm : sm0 = sm := Except.ok.inj hsel
      unfold firstStrong at hfs
      have hp := List.find?_some hfs
      rw [hsm] at hp
      simp only [Bool.and_eq_true] at hp
      rw [hp.2] at hrs
      cases hrs

/-- Witness for C3 at concrete inputs: packing 0xdeadbeef into the imm32
slot of the weakly selected `mov r32, imm32` mode falls back to unsigned
(signed packing fails at width 4), and the weak selection happened with no
strong candidate available. -/
theorem C3_imm_packing_witness :
    parse_operands_step 64 ["r32", "imm32"] movCls.operand_enc (some "oi")
        ⟨[], 0, none, none, none, none⟩ 1 (.int 0xdeadbeef)
      = .ok ⟨[], 0, none, none, none, some [0xef, 0xbe, 0xad, 0xde]⟩
    ∧ firstStrong ["r32", "imm64u"] (archFilter 64 movCls.modes) = none := by
  constructor
  · exact (C3_imm_packing.1 64 ["r32", "imm32"] movCls.operand_enc (some "oi")
      ⟨[], 0, none, none, none, none⟩ 1 0xdeadbeef
      [some "opcode +rd (w)", some "imm8/16/32/64"] "imm8/16/32/64" "imm32" 32 4
      (by decide) (by decide) (by decide) (by decide) (by decide) (by decide)
      (by decide) (by decide) (by tauto)).2 (by decide) [0xef, 0xbe, 0xad, 0xde] (by decide)
  · refine C3_imm_packing.2.1 64 "mov" movCls.modes ["r32", "imm64u"]
      (["r32", "imm32"], ⟨"b8+rd", some "oi", true, true⟩) ?_ (by decide) (by decide) (by decide)
    have hall : (archFilter 64 movCls.modes).all
        (fun sm => match checkRow (["r32", "imm64u"].zip sm.1) none with
          | .ok _ => true
          | .error _ => false) = true := by decide
    intro mode mv hm hl e he
    have hthis := (List.all_eq_true.mp hall) (mode, mv) hm
    dsimp only at hthis
    rw [he] at hthis
    cases hthis

end Asm

namespace Asm

lemma bind_ok_inv {α β : Type} (x : Except String α) (f : α → Except String β) (r : β)
    (h : Except.bind x f = .ok r) : ∃ a, x = .ok a ∧ f a = .ok r := by
  cases x with
  | error e => simp [Except.bind] at h
  | ok a =>
    simp only [Except.bind] at h
    exact ⟨a, rfl, h⟩

lemma mk_sib_shape (byts : Nat) (off : Option Register) (base : SibBase)
    (r : Nat) (s : Bytes) (h : mk_sib byts off base = .ok (r, s)) :
    ∃ b0, s = [b0] := by
  unfold mk_sib at h
  obtain ⟨⟨rex1, offr⟩, h1, h⟩ := bind_ok_inv _ _ _ h
  obtain ⟨⟨rex2, baser⟩, h2, h⟩ := bind_ok_inv _ _ _ h
  dsimp only at h
  exact ⟨_, (Prod.mk.injEq _ _ _ _ ▸ Except.ok.inj h).2.symm⟩

lemma addrPrefix_cases (arch : Nat) (p : Pointer) :
    p.addrPrefix arch = [] ∨ p.addrPrefix arch = [0x67] := by
  unfold Pointer.addrPrefix
  dsimp only
  split_ifs <;> simp

lemma modrm16_shape (p : Pointer) (reg : RegField) (mrex : Nat) (mcode : Bytes)
    (h : p.modrm16 reg = .ok (mrex, mcode)) :
    ∃ (mb : Nat) (sib disp : Bytes), mcode = mb :: sib ++ disp ∧ sib.length ≤ 1 := by
  unfold Pointer.modrm16 at h
  obtain ⟨u1, h1, h⟩ := bind_ok_inv _ _ _ h
  obtain ⟨rm, h2, h⟩ := bind_ok_inv _ _ _ h
  obtain ⟨dm, h3, h⟩ := bind_ok_inv _ _ _ h
  have := (Prod.mk.injEq _ _ _ _ ▸ Except.ok.inj h).2
  exact ⟨_, [], dm.1, this.symm, by simp⟩

lemma modrm_sib_shape (arch : Nat) (p : Pointer) (reg : RegField) (mrex : Nat) (mcode : Bytes)
    (h : p.modrm_sib arch reg = .ok (mrex, mcode)) :
    ∃ (mb : Nat) (sib disp : Bytes), mcode = mb :: sib ++ disp ∧ sib.length ≤ 1 := by
  unfold Pointer.modrm_sib at h
  obtain ⟨u1, h1, h⟩ := bind_ok_inv _ _ _ h
  by_cases h16 : ((p.reg1.any (fun r => r.bits == 16)) || (p.reg2.any (fun r => r.bits == 16))) = true
  · rw [if_pos h16] at h
    exact modrm16_shape p reg mrex mcode h
  · rw [if_neg h16] at h
    obtain ⟨dm, hdm, h⟩ := bind_ok_inv _ _ _ h
    dsimp only at h
    by_cases hns : (match p.scale with
        | none => true
        | some s => s == 0) = true
    · rw [if_pos hns] at h
      cases hregs : p.reg1.toList ++ p.reg2.toList with
      | nil =>
        rw [hregs] at h
        obtain ⟨u4, hu4, h⟩ := bind_ok_inv _ _ _ h
        obtain ⟨disp, hdisp, h⟩ := bind_ok_inv _ _ _ h
        by_cases ha32 : arch = 32
        · rw [if_pos ha32] at h
          dsimp only [mod_reg_rm] at h
          have := (Prod.mk.injEq _ _ _ _ ▸ Except.ok.inj h).2
          exact ⟨_, [], disp, this.symm, by simp⟩
        · rw [if_neg ha32] at h
          obtain ⟨⟨srex, sib⟩, hsib, h⟩ := bind_ok_inv _ _ _ h
          dsimp only [mod_reg_rm] at h
          have := (Prod.mk.injEq _ _ _ _ ▸ Except.ok.inj h).2
          obtain ⟨b0, hb0⟩ := mk_sib_shape _ _ _ _ _ hsib
          subst hb0
          exact ⟨_, [b0], disp, this.symm, by simp⟩
      | cons r0 tl =>
        cases tl with
        | nil =>
          rw [hregs] at h
          dsimp only at h
          by_cases h4 : r0.val3 = 4
          · rw [if_pos h4] at h
            obtain ⟨⟨srex, sib⟩, hsib, h⟩ := bind_ok_inv _ _ _ h
            dsimp only [mod_reg_rm] at h
            have := (Prod.mk.injEq _ _ _ _ ▸ Except.ok.inj h).2
            obtain ⟨b0, hb0⟩ := mk_sib_shape _ _ _ _ _ hsib
            subst hb0
            exact ⟨_, [b0], dm.1, this.symm, by simp⟩
          · rw [if_neg h4] at h
            by_cases h5 : r0.val3 = 5 ∧ dm.1 = []
            · rw [if_pos h5] at h
              dsimp only [mod_reg_rm] at h
              have := (Prod.mk.injEq _ _ _ _ ▸ Except.ok.inj h).2
              exact ⟨_, [], [0], this.symm, by simp⟩
            · rw [if_neg h5] at h
              dsimp only [mod_reg_rm] at h
              have := (Prod.mk.injEq _ _ _ _ ▸ Except.ok.inj h).2
              exact ⟨_, [], dm.1, this.symm, by simp⟩
        | cons r1 tl2 =>
          cases tl2 with
          | nil =>
            rw [hregs] at h
            dsimp only at h
            obtain ⟨step, hstep, h⟩ := bind_ok_inv _ _ _ h
            obtain ⟨l0, modF, dispF⟩ := step
            cases l0 with
            | nil => simp at h
            | cons o tl3 =>
              cases tl3 with
              | nil => simp at h
              | cons bs tl4 =>
                cases tl4 with
                | nil =>
                  dsimp only at h
                  obtain ⟨⟨srex, sib⟩, hsib, h⟩ := bind_ok_inv _ _ _ h
                  dsimp only [mod_reg_rm] at h
                  have := (Prod.mk.injEq _ _ _ _ ▸ Except.ok.inj h).2
                  obtain ⟨b0, hb0⟩ := mk_sib_shape _ _ _ _ _ hsib
                  subst hb0
                  exact ⟨_, [b0], dispF, this.symm, by simp⟩
                | cons _ _ => simp at h
          | cons _ _ =>
            rw [hregs] at h
            simp at h
    · rw [if_neg hns] at h
      obtain ⟨byts, hbyts, h⟩ := bind_ok_inv _ _ _ h
      cases hr1 : p.reg1 with
      | none =>
        rw [hr1] at h
        simp at h
      | some off =>
        rw [hr1] at h
        obtain ⟨u5, hu5, h⟩ := bind_ok_inv _ _ _ h
        try dsimp only at h
        obtain ⟨⟨srex, sib⟩, hsib, h⟩ := bind_ok_inv _ _ _ h
        dsimp only [mod_reg_rm] at h
        have := (Prod.mk.injEq _ _ _ _ ▸ Except.ok.inj h).2
        obtain ⟨b0, hb0⟩ := mk_sib_shape _ _ _ _ _ hsib
        subst hb0
        exact ⟨_, [b0], _, this.symm, by simp⟩

lemma ModRmSib_shape (arch : Nat) (a? : Option MArg) (b : MArg) (mrex : Nat) (mcode : Bytes)
    (h : ModRmSib arch a? b = .ok (mrex, mcode)) :
    ∃ (mb : Nat) (sib disp : Bytes), mcode = mb :: sib ++ disp ∧ sib.length ≤ 1 := by
  unfold ModRmSib at h
  cases a? with
  | none => simp [bind, Except.bind] at h
  | some a =>
    dsimp only at h
    simp only [bind, Except.bind] at h
    cases a with
      | reg ra =>
        cases b with
        | reg rb =>
          dsimp only [mod_reg_rm] at h
          have := (Prod.mk.injEq _ _ _ _ ▸ Except.ok.inj h).2
          exact ⟨_, [], [], this.symm, by simp⟩
        | ptr pb => exact modrm_sib_shape arch pb _ mrex mcode h
        | ext _ => simp at h
      | ext na =>
        cases b with
        | reg rb =>
          dsimp only [mod_reg_rm] at h
          have := (Prod.mk.injEq _ _ _ _ ▸ Except.ok.inj h).2
          exact ⟨_, [], [], this.symm, by simp⟩
        | ptr pb => exact modrm_sib_shape arch pb _ mrex mcode h
        | ext _ => simp at h
      | ptr pa =>
        cases b with
        | reg rb => exact modrm_sib_shape arch pa _ mrex mcode h
        | ptr _ => simp at h
        | ext _ => simp at h


lemma insertDesc67 (a b : Nat) :
    insertDesc [0x67] (List.replicate a [0x67] ++ List.replicate b [0x66])
      = List.replicate (a + 1) [0x67] ++ List.replicate b [0x66] := by
  induction a with
  | zero =>
    cases b with
    | zero => rfl
    | succ b2 => rfl
  | succ a2 ih =>
    simp only [List.replicate_succ, List.cons_append, insertDesc]
    rw [show bytesLt [0x67] [0x67] = false from rfl]
    simp only [if_false, Bool.false_eq_true, List.append_eq]
    rw [ih]
    try simp [List.replicate_succ]

lemma insertDesc66 (a b : Nat) :
    insertDesc [0x66] (List.replicate a [0x67] ++ List.replicate b [0x66])
      = List.replicate a [0x67] ++ List.replicate (b + 1) [0x66] := by
  induction a with
  | zero =>
    simp only [List.replicate, List.nil_append]
    induction b with
    | zero => rfl
    | succ b2 ihb =>
      simp only [List.replicate_succ, insertDesc]
      rw [show bytesLt [0x66] [0x66] = false from rfl]
      simp only [if_false, Bool.false_eq_true, List.append_eq]
      rw [ihb]
      try simp [List.replicate_succ]
  | succ a2 ih =>
    simp only [List.replicate_succ, List.cons_append, insertDesc]
    rw [show bytesLt [0x67] [0x66] = false from rfl]
    simp only [if_false, Bool.false_eq_true, List.append_eq]
    rw [ih]
    try simp [List.replicate_succ]

lemma sortDesc_two : ∀ (l : List Bytes), (∀ x ∈ l, x = [0x67] ∨ x = [0x66]) →
    ∃ a b, sortDesc l = List.replicate a [0x67] ++ List.replicate b [0x66] := by
  intro l
  induction l with
  | nil =>
    intro _
    exact ⟨0, 0, rfl⟩
  | cons x xs ih =>
    intro hP
    obtain ⟨a, b, hab⟩ := ih (fun y hy => hP y (List.mem_cons_of_mem _ hy))
    rcases hP x (List.mem_cons_self _ _) with rfl | rfl
    · exact ⟨a + 1, b, by rw [show sortDesc ([0x67] :: xs) = insertDesc [0x67] (sortDesc xs)
        from rfl, hab, insertDesc67]⟩
    · exact ⟨a, b + 1, by rw [show sortDesc ([0x66] :: xs) = insertDesc [0x66] (sortDesc xs)
        from rfl, hab, insertDesc66]⟩


lemma mem_pfx66 (prefixes : List Bytes) (c : Bool)
    (hP : ∀ x ∈ prefixes, x = [0x67] ∨ x = [0x66]) :
    ∀ x ∈ (if c then prefixes ++ [[0x66]] else prefixes), x = [0x67] ∨ x = [0x66] := by
  cases c with
  | false =>
    simpa using hP
  | true =>
    simp only [if_true]
    intro x hx
    rcases List.mem_append.mp hx with hx1 | hx1
    · exact hP x hx1
    · right
      simpa using hx1

lemma step_prefixes (arch : Nat) (use_sig : Sig)
    (enc_tab : List (String × List (Option String))) (key : Option String)
    (acc : PO) (i : Nat) (a : Arg) (acc1 : PO)
    (h : parse_operands_step arch use_sig enc_tab key acc i a = .ok acc1)
    (hP : ∀ x ∈ acc.prefixes, x = [0x67] ∨ x = [0x66]) :
    ∀ x ∈ acc1.prefixes, x = [0x67] ∨ x = [0x66] := by
  unfold parse_operands_step at h
  obtain ⟨encList, hle, h⟩ := bind_ok_inv _ _ _ h
  dsimp only at h
  cases hg : encList.get? i with
  | none =>
    rw [hg] at h
    dsimp only at h
    obtain ⟨y, hy, h⟩ := bind_ok_inv _ _ _ h
    exact absurd hy (by simp)
  | some e =>
    rw [hg] at h
    dsimp only at h
    obtain ⟨y, hy, h⟩ := bind_ok_inv _ _ _ h
    cases Except.ok.inj hy
    try dsimp only at h
    cases e with
    | none =>
      try dsimp only at h
      have hh := Except.ok.inj h
      rw [← hh]
      exact hP
    | some enc =>
      try dsimp only at h
      by_cases hc1 : strStartsWith enc "opcode +rd" = true
      · rw [if_pos hc1] at h
        cases a with
        | reg r =>
          try dsimp only at h
          have hh := Except.ok.inj h
          rw [← hh]
          exact mem_pfx66 acc.prefixes _ hP
        | ptr p => simp at h
        | int n => simp at h
        | bytes bs => simp at h
      · rw [if_neg hc1] at h
        by_cases hc2 : strStartsWith enc "ModRM:r/m" = true
        · rw [if_pos hc2] at h
          obtain ⟨b16, hb16, h⟩ := bind_ok_inv _ _ _ h
          try dsimp only at h
          cases a with
          | ptr p =>
            try dsimp only at h
            have hh := Except.ok.inj h
            rw [← hh]
            dsimp only
            have hmid := mem_pfx66 acc.prefixes (b16 && !(acc.prefixes.contains [0x66])) hP
            by_cases hap : p.addrPrefix arch ≠ []
            · rw [if_pos hap]
              intro x hx
              rcases List.mem_append.mp hx with hx1 | hx1
              · exact hmid x hx1
              · left
                rcases addrPrefix_cases arch p with he | he
                · exact absurd he hap
                · rw [← he]
                  simpa using hx1
            · rw [if_neg hap]
              exact hmid
          | reg r =>
            try dsimp only at h
            have hh := Except.ok.inj h
            rw [← hh]
            exact mem_pfx66 acc.prefixes _ hP
          | int n => simp [argBits16] at hb16
          | bytes bs => simp [argBits16] at hb16
        · rw [if_neg hc2] at h
          by_cases hc3 : strStartsWith enc "ModRM:reg" = true
          · rw [if_pos hc3] at h
            obtain ⟨b16, hb16, h⟩ := bind_ok_inv _ _ _ h
            try dsimp only at h
            have hh := Except.ok.inj h
            rw [← hh]
            exact mem_pfx66 acc.prefixes _ hP
          · rw [if_neg hc3] at h
            by_cases hc4 : strStartsWith enc "imm" = true
            · rw [if_pos hc4] at h
              cases hgs : use_sig.get? i with
              | none =>
                rw [hgs] at h
                dsimp only at h
                obtain ⟨y1, hy1, h⟩ := bind_ok_inv _ _ _ h
                exact absurd hy1 (by simp)
              | some sigEntry =>
                rw [hgs] at h
                dsimp only at h
                obtain ⟨y1, hy1, h⟩ := bind_ok_inv _ _ _ h
                cases Except.ok.inj hy1
                try dsimp only at h
                cases hti : toNatL (rstripSet (sigEntry.toList.drop 3) ['u']) with
                | none =>
                  rw [hti] at h
                  try dsimp only at h
                  obtain ⟨y2, hy2, h⟩ := bind_ok_inv _ _ _ h
                  exact absurd hy2 (by simp)
                | some immsize =>
                  rw [hti] at h
                  try dsimp only at h
                  obtain ⟨y2, hy2, h⟩ := bind_ok_inv _ _ _ h
                  cases Except.ok.inj hy2
                  try dsimp only at h
                  obtain ⟨w, hw, h⟩ := bind_ok_inv _ _ _ h
                  obtain ⟨packed, hpk, h⟩ := bind_ok_inv _ _ _ h
                  obtain ⟨u0, hu0, h⟩ := bind_ok_inv _ _ _ h
                  try dsimp only at h
                  have hh := Except.ok.inj h
                  rw [← hh]
                  exact hP
            · rw [if_neg hc4] at h
              simp at h


lemma go_prefixes (arch : Nat) (use_sig : Sig)
    (enc_tab : List (String × List (Option String))) (key : Option String) :
    ∀ (args : List Arg) (i : Nat) (acc acc1 : PO),
      parse_operands_go arch use_sig enc_tab key i args acc = .ok acc1 →
      (∀ x ∈ acc.prefixes, x = [0x67] ∨ x = [0x66]) →
      ∀ x ∈ acc1.prefixes, x = [0x67] ∨ x = [0x66] := by
  intro args
  induction args with
  | nil =>
    intro i acc acc1 h hP
    cases h
    exact hP
  | cons a rest ih =>
    intro i acc acc1 h hP
    unfold parse_operands_go at h
    obtain ⟨acc2, h1, h⟩ := bind_ok_inv _ _ _ h
    exact ih (i + 1) acc2 acc1 h (step_prefixes arch use_sig enc_tab key acc i a acc2 h1 hP)

lemma parse_operands_prefixes (arch : Nat) (clean_args : List Arg)
    (enc_tab : List (String × List (Option String))) (use_sig : Sig) (mv : ModeV) (po : PO)
    (h : parse_operands arch clean_args enc_tab use_sig mv = .ok po) :
    ∃ a b, po.prefixes = List.replicate a [0x67] ++ List.replicate b [0x66] := by
  unfold parse_operands at h
  obtain ⟨acc, h1, h⟩ := bind_ok_inv _ _ _ h
  have hmem : ∀ x ∈ acc.prefixes, x = [0x67] ∨ x = [0x66] :=
    go_prefixes arch use_sig enc_tab mv.enc clean_args 0 ⟨[], 0, none, none, none, none⟩ acc h1
      (by intro x hx; cases hx)
  obtain ⟨a, b, hab⟩ := sortDesc_two acc.prefixes hmem
  have hh := Except.ok.inj h
  rw [← hh]
  exact ⟨a, b, hab⟩


lemma generate_parts_inv (arch : Nat) (clean_args : List Arg) (use_sig : Sig) (mv : ModeV)
    (enc_tab : List (String × List (Option String))) (parts : Parts)
    (h : generate_instruction_parts arch clean_args use_sig mv enc_tab = .ok parts) :
    ∃ (po : PO) (v : Nat) (operands0 : List Bytes),
      parse_operands arch clean_args enc_tab use_sig mv = .ok po ∧
      parts.prefixes = po.prefixes ∧
      parts.rexByte = (if v = 0 then [] else [v]) ∧
      operands0.length ≤ 1 ∧
      (∀ x ∈ operands0, ∃ (mreg : Option MArg) (bm : MArg) (mrex : Nat),
        ModRmSib arch mreg bm = .ok (mrex, x)) ∧
      parts.operands = operands0 ++ (match po.imm with | some imm => [imm] | none => []) := by
  unfold generate_instruction_parts at h
  dsimp only at h
  split at h
  case _ s heq0 =>
    obtain ⟨y0, hy0, h⟩ := bind_ok_inv _ _ _ h
    cases Except.ok.inj hy0
    try dsimp only at h
    split at h
    case _ ob heqb =>
      obtain ⟨y1, hy1, h⟩ := bind_ok_inv _ _ _ h
      cases Except.ok.inj hy1
      try dsimp only at h
      obtain ⟨oext, hoext, h⟩ := bind_ok_inv _ _ _ h
      obtain ⟨po, hpo, h⟩ := bind_ok_inv _ _ _ h
      obtain ⟨mreg, hmreg, h⟩ := bind_ok_inv _ _ _ h
      obtain ⟨opc1, hopc1, h⟩ := bind_ok_inv _ _ _ h
      obtain ⟨⟨operands0, rex1⟩, hops, h⟩ := bind_ok_inv _ _ _ h
      dsimp only at h
      have hh := Except.ok.inj h
      rw [← hh]
      dsimp only
      refine ⟨po, _, operands0, hpo, rfl, rfl, ?_, ?_, ?_⟩
      · cases hrm : po.rm with
        | none =>
          rw [hrm] at hops
          have := (Prod.mk.injEq _ _ _ _ ▸ Except.ok.inj hops).1
          rw [← this]
          simp
        | some rmArg =>
          rw [hrm] at hops
          dsimp only at hops
          obtain ⟨bm, hbm, hops⟩ := bind_ok_inv _ _ _ hops
          obtain ⟨⟨mrex, mcode⟩, hmc, hops⟩ := bind_ok_inv _ _ _ hops
          dsimp only at hops
          have := (Prod.mk.injEq _ _ _ _ ▸ Except.ok.inj hops).1
          rw [← this]
          simp
      · intro x hx
        cases hrm : po.rm with
        | none =>
          rw [hrm] at hops
          have := (Prod.mk.injEq _ _ _ _ ▸ Except.ok.inj hops).1
          rw [← this] at hx
          cases hx
        | some rmArg =>
          rw [hrm] at hops
          dsimp only at hops
          obtain ⟨bm, hbm, hops⟩ := bind_ok_inv _ _ _ hops
          obtain ⟨⟨mrex, mcode⟩, hmc, hops⟩ := bind_ok_inv _ _ _ hops
          dsimp only at hops
          have := (Prod.mk.injEq _ _ _ _ ▸ Except.ok.inj hops).1
          rw [← this] at hx
          have hxm : x = mcode := by simpa using hx
          exact ⟨mreg, bm, mrex, by rw [hxm]; exact hmc⟩
      · cases hi : po.imm with
        | none => simp
        | some imm => simp
    case _ heqb =>
      obtain ⟨y1, hy1, h⟩ := bind_ok_inv _ _ _ h
      exact absurd hy1 (by simp)
  case _ heq0 =>
    obtain ⟨y0, hy0, h⟩ := bind_ok_inv _ _ _ h
    exact absurd hy0 (by simp)


/-- C8: a compiled instruction is laid out as sorted prefixes, REX byte,
opcode, ModR/M+SIB+displacement, immediate; the prefix list is some number
of 0x67 bytes followed by some number of 0x66 bytes (so 0x67 always
precedes 0x66); the REX byte is emitted exactly when its value is nonzero;
and each ModR/M operand string is one ModR/M byte, then at most one SIB
byte, then the displacement. -/
theorem C8_byte_order :
    ∀ (arch : Nat) (cls : InstrCls) (args : List Arg) (sig use_sig : Sig) (mv : ModeV)
      (parts : Parts),
      instructionParts arch cls args = .ok (sig, use_sig, mv, parts) →
      instructionCode arch cls args
        = .ok (parts.prefixes.flatten ++ parts.rexByte ++ parts.opcode
            ++ parts.operands.flatten)
      ∧ (∃ v : Nat, parts.rexByte = if v = 0 then [] else [v])
      ∧ (∃ a b : Nat, parts.prefixes = List.replicate a [0x67] ++ List.replicate b [0x66])
      ∧ (∃ operands0 imms : List Bytes,
          parts.operands = operands0 ++ imms ∧ operands0.length ≤ 1 ∧ imms.length ≤ 1 ∧
          ∀ x ∈ operands0, ∃ (mb : Nat) (sib disp : Bytes),
            x = mb :: sib ++ disp ∧ sib.length ≤ 1) := by
  intro arch cls args sig use_sig mv parts h
  have hcode : instructionCode arch cls args
      = .ok (parts.prefixes.flatten ++ parts.rexByte ++ parts.opcode
          ++ parts.operands.flatten) := by
    unfold instructionCode
    rw [h]
    rfl
  unfold instructionParts at h
  obtain ⟨⟨sig0, clean⟩, h1, h⟩ := bind_ok_inv _ _ _ h
  try dsimp only at h
  obtain ⟨⟨use0, mv0⟩, h2, h⟩ := bind_ok_inv _ _ _ h
  try dsimp only at h
  obtain ⟨parts0, h3, h⟩ := bind_ok_inv _ _ _ h
  try dsimp only at h
  have h4 := Except.ok.inj h
  simp only [Prod.mk.injEq] at h4
  obtain ⟨rfl, rfl, rfl, rfl⟩ := h4
  obtain ⟨po, v, operands0, hpo, hpre, hrex, hlen, hshape, hops⟩ :=
    generate_parts_inv arch clean use0 mv0 cls.operand_enc parts0 h3
  refine ⟨hcode, ⟨v, hrex⟩, ?_, ?_⟩
  · rw [hpre]
    exact parse_operands_prefixes arch clean cls.operand_enc use0 mv0 po hpo
  · refine ⟨operands0, _, hops, hlen, ?_, ?_⟩
    · cases po.imm <;> simp
    · intro x hx
      obtain ⟨mreg, bm, mrex, hmc⟩ := hshape x hx
      exact ModRmSib_shape arch mreg bm mrex x hmc

/-- Witness for C8 at a concrete instruction: `mov cx, [bx+si]` on a
32-bit process, whose bytes are the 0x67 address prefix, then the 0x66
operand prefix, then opcode 0x8b, then ModR/M 0x08. -/
theorem C8_byte_order_witness :
    instructionCode 32 movCls [.reg cx, .ptr ⟨some bx, none, some si, none, none⟩]
      = .ok ([[0x67], [0x66]].flatten ++ [] ++ [0x8b] ++ [[0x08]].flatten) :=
  (C8_byte_order 32 movCls [.reg cx, .ptr ⟨some bx, none, some si, none, none⟩]
    ["r16", "m"] ["r16", "r/m16"] ⟨"8b /r", some "rm", true, true⟩
    ⟨[[0x67], [0x66]], [], [0x8b], [[0x08]]⟩ (by decide)).1

end Asm
